import Mathlib

/-!
Verification of the client-side data-access and caching layer in
`kolibri/core/assets/src/api-resource.js`.

The development shallowly embeds the JavaScript source:

* JavaScript values that can appear as model attributes, query parameters or
  response bodies are modelled by the inductive type `Value` (numbers are
  modelled as integers, the only form the layer manipulates).
* JavaScript objects are modelled as insertion-ordered association lists with
  unique keys (`Obj`); property update (`objSet`) keeps the position of an
  existing key and appends a new key, exactly as JS property assignment does,
  and `objAssign` is `Object.assign`.
* `Model` / `Collection` / `Resource` instances are mutable shared objects in
  JS; models live in an explicit heap (`RState.heap`) and are referred to by
  address, so that reference sharing and in-place mutation are expressible.
* The asynchronous operations (`fetch`/`save`/`delete`) are embedded as pure
  step functions.  Each takes the settlement of the prior-operations snapshot
  (`prior`) and the transport result (`client`) as explicit inputs and returns
  the post-state, the settlement of the operation's own handle (`Outcome`),
  and the observable effects (transport request issued, log events).
-/

/-- JavaScript values handled by the layer (numbers restricted to integers). -/
inductive Value where
  | vstr (s : String)
  | vnum (n : Int)
  | vbool (b : Bool)
  | vnull
  | vundef
  | varr (vs : List Value)
  | vobj (fs : List (String × Value))
  deriving Repr

/-- A JavaScript object: insertion-ordered association list of properties. -/
abbrev Obj := List (String × Value)

/-- JavaScript truthiness of a `Value`. -/
def truthy : Value → Bool
  | .vstr s => s ≠ ""
  | .vnum n => n ≠ 0
  | .vbool b => b
  | .vnull => false
  | .vundef => false
  | .varr _ => true
  | .vobj _ => true

/-- Property lookup on an object (`o[k]`, `none` when the key is absent). -/
def olookup (o : Obj) (k : String) : Option Value :=
  match o with
  | [] => none
  | p :: rest => if p.1 = k then some p.2 else olookup rest k

/-- Property assignment `o[k] = v`: an existing key keeps its position, a new
key is appended, as in JavaScript. -/
def objSet (o : Obj) (k : String) (v : Value) : Obj :=
  match o with
  | [] => [(k, v)]
  | p :: rest => if p.1 = k then (k, v) :: rest else p :: objSet rest k v

/-- `Object.assign(o, u)`: copy the properties of `u` onto `o` in order. -/
def objAssign (o u : Obj) : Obj :=
  u.foldl (fun acc p => objSet acc p.1 p.2) o

mutual

/-- Deep structural equality of values: the embedding of lodash `isEqual` as
used by the dirty-diff computation in `Model.save`. -/
def veq : Value → Value → Bool
  | .vstr a, .vstr b => a == b
  | .vnum a, .vnum b => a == b
  | .vbool a, .vbool b => a == b
  | .vnull, .vnull => true
  | .vundef, .vundef => true
  | .varr a, .varr b => veqList a b
  | .vobj a, .vobj b => veqFields a b
  | _, _ => false

/-- Elementwise deep equality of arrays. -/
def veqList : List Value → List Value → Bool
  | [], [] => true
  | x :: xs, y :: ys => veq x y && veqList xs ys
  | _, _ => false

/-- Fieldwise deep equality of objects. -/
def veqFields : List (String × Value) → List (String × Value) → Bool
  | [], [] => true
  | x :: xs, y :: ys => (x.1 == y.1 && veq x.2 y.2) && veqFields xs ys
  | _, _ => false

end

mutual

/-- `String(v)`, the JavaScript string coercion. -/
def jsToString : Value → String
  | .vstr s => s
  | .vnum n => toString n
  | .vbool b => if b then "true" else "false"
  | .vnull => "null"
  | .vundef => "undefined"
  | .vobj _ => "[object Object]"
  | .varr vs => jsArrJoin vs

/-- `Array.prototype.toString`: elements joined by commas, with null and
undefined elements rendering as the empty string. -/
def jsArrJoin : List Value → String
  | [] => ""
  | v :: rest =>
    (match v with
      | .vnull => ""
      | .vundef => ""
      | w => jsToString w)
    ++ (if rest.isEmpty then "" else ",") ++ jsArrJoin rest

end

/-- One character of a JSON string literal. -/
def jsonQuoteChar (c : Char) : String :=
  if c = '"' then "\\\""
  else if c = '\\' then "\\\\"
  else if c = '\n' then "\\n"
  else if c = '\t' then "\\t"
  else if c = '\r' then "\\r"
  else String.singleton c

/-- JSON string literal for `s`. -/
def jsonQuote (s : String) : String :=
  "\"" ++ String.join (s.toList.map jsonQuoteChar) ++ "\""

mutual

/-- `JSON.stringify(v)`; `none` models the `undefined` result (an `undefined`
property is dropped from objects, and becomes `null` inside arrays). -/
def jsonStr : Value → Option String
  | .vundef => none
  | .vstr s => some (jsonQuote s)
  | .vnum n => some (toString n)
  | .vbool b => some (if b then "true" else "false")
  | .vnull => some "null"
  | .varr vs => some ("[" ++ String.intercalate "," (jsonArrStrs vs) ++ "]")
  | .vobj fs => some ("\x7b" ++ String.intercalate "," (jsonFieldStrs fs) ++ "\x7d")

/-- Serialized array elements (undefined becomes `null`). -/
def jsonArrStrs : List Value → List String
  | [] => []
  | v :: rest => (jsonStr v).getD "null" :: jsonArrStrs rest

/-- Serialized object fields, dropping fields whose value is undefined. -/
def jsonFieldStrs : List (String × Value) → List String
  | [] => []
  | (k, v) :: rest =>
    match jsonStr v with
    | none => jsonFieldStrs rest
    | some s => (jsonQuote k ++ ":" ++ s) :: jsonFieldStrs rest

end

/-- Lexicographic comparison of character lists by code point: the comparison
`Array.prototype.sort` applies to the merged key set in `__cacheKey`. -/
def charsLe : List Char → List Char → Bool
  | [], _ => true
  | _ :: _, [] => false
  | a :: xs, b :: ys => if a = b then charsLe xs ys else decide (a < b)

/-- Default JavaScript string ordering, as a Bool-valued comparison. -/
def strLeB (a b : String) : Bool :=
  charsLe a.toList b.toList

/-- Default JavaScript string ordering, as a relation. -/
def strLeR (a b : String) : Prop :=
  strLeB a b = true

instance : DecidableRel strLeR :=
  fun a b => inferInstanceAs (Decidable (strLeB a b = true))

/-- `Object.assign({}, ...params)`: the merged parameter object. -/
def mergeParams (params : List Obj) : Obj :=
  params.foldl objAssign []

/-- `Resource.__cacheKey(...params)` (api-resource.js lines 605-619): merge the
parameter objects left to right with `Object.assign`, sort the merged keys,
coerce the `idKey` value with `String(...)`, and `JSON.stringify` the result. -/
def cacheKey (idKey : String) (params : List Obj) : String :=
  let allParams := mergeParams params
  let sortedKeys := (allParams.map Prod.fst).insertionSort strLeR
  (jsonStr (.vobj (sortedKeys.map (fun k =>
    let v := (olookup allParams k).getD .vundef
    (k, if k = idKey then .vstr (jsToString v) else v))))).getD "undefined"

example : cacheKey "id" [[("b", .vnum 1), ("id", .vnum 7)]] =
    "\x7b\"b\":1,\"id\":\"7\"\x7d" := by decide

example : cacheKey "id" [[("id", .vstr "7")], [("b", .vnum 1)]] =
    "\x7b\"b\":1,\"id\":\"7\"\x7d" := by decide

/-! ### Order facts about the key sort used by `__cacheKey` -/

theorem charsLe_total : ∀ xs ys : List Char, charsLe xs ys = true ∨ charsLe ys xs = true
  | [], _ => .inl rfl
  | _ :: _, [] => .inr rfl
  | x :: xs, y :: ys => by
    by_cases hxy : x = y
    · subst hxy
      rcases charsLe_total xs ys with h | h
      · exact .inl (by simp [charsLe, h])
      · exact .inr (by simp [charsLe, h])
    · rcases lt_or_gt_of_ne hxy with h | h
      · exact .inl (by simp [charsLe, hxy, h])
      · exact .inr (by simp [charsLe, Ne.symm hxy, h])

theorem charsLe_trans :
    ∀ xs ys zs : List Char,
      charsLe xs ys = true → charsLe ys zs = true → charsLe xs zs = true
  | [], _, _, _, _ => rfl
  | _ :: _, [], _, h1, _ => by simp [charsLe] at h1
  | _ :: _, _ :: _, [], _, h2 => by simp [charsLe] at h2
  | x :: xs, y :: ys, z :: zs, h1, h2 => by
    by_cases hxy : x = y
    · subst hxy
      by_cases hyz : x = z
      · subst hyz
        simp [charsLe] at h1 h2 ⊢
        exact charsLe_trans _ _ _ h1 h2
      · simp [charsLe, hyz] at h2 ⊢
        exact h2
    · by_cases hyz : y = z
      · subst hyz
        simp [charsLe, hxy] at h1 ⊢
        exact h1
      · simp [charsLe, hxy, hyz] at h1 h2
        have hxz := lt_trans h1 h2
        simp [charsLe, ne_of_lt hxz, hxz]

theorem charsLe_antisymm :
    ∀ xs ys : List Char, charsLe xs ys = true → charsLe ys xs = true → xs = ys
  | [], [], _, _ => rfl
  | [], _ :: _, _, h2 => by simp [charsLe] at h2
  | _ :: _, [], h1, _ => by simp [charsLe] at h1
  | x :: xs, y :: ys, h1, h2 => by
    by_cases hxy : x = y
    · subst hxy
      simp only [charsLe, if_pos rfl] at h1 h2
      rw [charsLe_antisymm _ _ h1 h2]
    · simp [charsLe, hxy, Ne.symm hxy] at h1 h2
      exact absurd (lt_trans h1 h2) (lt_irrefl x)

instance : IsTotal String strLeR :=
  ⟨fun a b => charsLe_total a.toList b.toList⟩

instance : IsTrans String strLeR :=
  ⟨fun _ _ _ h1 h2 => charsLe_trans _ _ _ h1 h2⟩

instance : IsAntisymm String strLeR :=
  ⟨fun a b h1 h2 => by
    have h := charsLe_antisymm _ _ h1 h2
    cases a with
    | mk d1 =>
      cases b with
      | mk d2 => exact congrArg String.mk h⟩

/-! ### Association-list object lemmas -/

theorem olookup_objSet (o : Obj) (k k' : String) (v : Value) :
    olookup (objSet o k v) k' = if k = k' then some v else olookup o k' := by
  induction o with
  | nil => simp [objSet, olookup]
  | cons p rest ih =>
    by_cases hp : p.1 = k
    · subst hp
      by_cases hk : p.1 = k' <;> simp [objSet, olookup, hk]
    · by_cases hk : p.1 = k'
      · subst hk
        have : k ≠ p.1 := fun hh => hp hh.symm
        simp [objSet, olookup, hp, this]
      · simp [objSet, olookup, hp, hk, ih]

theorem mem_keys_objSet (o : Obj) (k v k') :
    k' ∈ (objSet o k v).map Prod.fst ↔ k' ∈ o.map Prod.fst ∨ k' = k := by
  induction o with
  | nil => simp [objSet]
  | cons p rest ih =>
    by_cases hp : p.1 = k
    · subst hp
      simp [objSet]
      tauto
    · simp [objSet, hp, ih]
      tauto

theorem nodup_keys_objSet (o : Obj) (k v) (h : (o.map Prod.fst).Nodup) :
    ((objSet o k v).map Prod.fst).Nodup := by
  induction o with
  | nil => simp [objSet]
  | cons p rest ih =>
    simp only [List.map_cons, List.nodup_cons] at h
    by_cases hp : p.1 = k
    · subst hp
      simpa [objSet] using h
    · have hrw : objSet (p :: rest) k v = p :: objSet rest k v := by
        simp [objSet, hp]
      rw [hrw, List.map_cons, List.nodup_cons]
      refine ⟨fun hmem => ?_, ih h.2⟩
      rcases (mem_keys_objSet rest k v p.1).mp hmem with h1 | h1
      · exact h.1 h1
      · exact hp h1

theorem nodup_keys_objAssign (o u : Obj) (h : (o.map Prod.fst).Nodup) :
    ((objAssign o u).map Prod.fst).Nodup := by
  induction u generalizing o with
  | nil => simpa [objAssign] using h
  | cons p rest ih =>
    show ((objAssign (objSet o p.1 p.2) rest).map Prod.fst).Nodup
    exact ih _ (nodup_keys_objSet o p.1 p.2 h)

theorem nodup_keys_mergeParams (params : List Obj) :
    ((mergeParams params).map Prod.fst).Nodup := by
  suffices hgen : ∀ o : Obj, (o.map Prod.fst).Nodup →
      ((params.foldl objAssign o).map Prod.fst).Nodup by
    exact hgen [] (by simp)
  induction params with
  | nil => intro o h; simpa
  | cons u rest ih =>
    intro o h
    exact ih (objAssign o u) (nodup_keys_objAssign o u h)

theorem olookup_isSome_iff (o : Obj) (k : String) :
    (olookup o k).isSome = true ↔ k ∈ o.map Prod.fst := by
  induction o with
  | nil => simp [olookup]
  | cons p rest ih =>
    by_cases hp : p.1 = k
    · simp [olookup, hp]
    · have hne : ¬ k = p.1 := fun hh => hp hh.symm
      simp [olookup, hp, hne, ih]

/-- The merged parameter mapping as seen by claim C1: property lookup with the
`idKey` value coerced to its string form, so an identity of `7` and of `"7"`
count as the same pair. -/
def coercedLookup (idKey : String) (o : Obj) (k : String) : Option Value :=
  (olookup o k).map (fun v => if k = idKey then .vstr (jsToString v) else v)

/-- C1: for every two sequences of parameter objects whose merged key/value
pairs are identical (objects merged left to right with later objects winning,
and with the `idKey` value compared after string coercion, so `7` and `"7"`
are equivalent), `Resource.__cacheKey` returns identical strings. -/
theorem cacheKey_insertion_order_independent (idKey : String) (ps1 ps2 : List Obj)
    (h : ∀ k, coercedLookup idKey (mergeParams ps1) k =
      coercedLookup idKey (mergeParams ps2) k) :
    cacheKey idKey ps1 = cacheKey idKey ps2 := by
  have hsome : ∀ k, (olookup (mergeParams ps1) k).isSome =
      (olookup (mergeParams ps2) k).isSome := by
    intro k
    have hk := h k
    unfold coercedLookup at hk
    cases h1 : olookup (mergeParams ps1) k <;> cases h2 : olookup (mergeParams ps2) k <;>
      simp [h1, h2] at hk ⊢
  have hmem : ∀ k, k ∈ (mergeParams ps1).map Prod.fst ↔
      k ∈ (mergeParams ps2).map Prod.fst := by
    intro k
    rw [← olookup_isSome_iff, ← olookup_isSome_iff, hsome k]
  have hperm : ((mergeParams ps1).map Prod.fst).Perm ((mergeParams ps2).map Prod.fst) :=
    (List.perm_ext_iff_of_nodup (nodup_keys_mergeParams ps1)
      (nodup_keys_mergeParams ps2)).mpr hmem
  have hsortedeq :
      ((mergeParams ps1).map Prod.fst).insertionSort strLeR =
      ((mergeParams ps2).map Prod.fst).insertionSort strLeR :=
    List.eq_of_perm_of_sorted
      (((List.perm_insertionSort strLeR _).trans hperm).trans
        (List.perm_insertionSort strLeR _).symm)
      (List.sorted_insertionSort strLeR _) (List.sorted_insertionSort strLeR _)
  simp only [cacheKey]
  rw [hsortedeq]
  congr 3
  apply List.map_congr_left
  intro k hk
  have hk2 : k ∈ (mergeParams ps2).map Prod.fst := by
    simpa using (List.mem_insertionSort strLeR).mp hk
  have hk1 : k ∈ (mergeParams ps1).map Prod.fst := (hmem k).mpr hk2
  obtain ⟨v1, hv1⟩ := Option.isSome_iff_exists.mp ((olookup_isSome_iff _ k).mpr hk1)
  obtain ⟨v2, hv2⟩ := Option.isSome_iff_exists.mp ((olookup_isSome_iff _ k).mpr hk2)
  have hck := h k
  unfold coercedLookup at hck
  rw [hv1, hv2] at hck
  simp only [Option.map_some'] at hck
  injection hck with hck
  rw [hv1, hv2]
  simp only [Option.getD_some]
  exact congrArg (Prod.mk k) hck

/-- Witness for C1: the parameter set `{b: 1, id: 7}` built in two different
orders (and with the identity as a number in one and a string in the other)
yields the same cache key. -/
theorem cacheKey_insertion_order_independent_witness :
    (∀ k, coercedLookup "id" (mergeParams [[("b", .vnum 1), ("id", .vnum 7)]]) k =
        coercedLookup "id" (mergeParams [[("id", .vstr "7")], [("b", .vnum 1)]]) k) ∧
    cacheKey "id" [[("b", .vnum 1), ("id", .vnum 7)]] =
      cacheKey "id" [[("id", .vstr "7")], [("b", .vnum 1)]] := by
  have hhyp : ∀ k, coercedLookup "id" (mergeParams [[("b", .vnum 1), ("id", .vnum 7)]]) k =
      coercedLookup "id" (mergeParams [[("id", .vstr "7")], [("b", .vnum 1)]]) k := by
    intro k
    show coercedLookup "id" [("b", .vnum 1), ("id", .vnum 7)] k =
      coercedLookup "id" [("id", .vstr "7"), ("b", .vnum 1)] k
    by_cases hb : k = "b"
    · subst hb; rfl
    · by_cases hid : k = "id"
      · subst hid; rfl
      · have hb' : ¬ ("b" : String) = k := fun hh => hb hh.symm
        have hid' : ¬ ("id" : String) = k := fun hh => hid hh.symm
        simp [coercedLookup, olookup, hb', hid']
  exact ⟨hhyp, cacheKey_insertion_order_independent "id" _ _ hhyp⟩

/-! ### The data model: models, the registry heap, and caches -/

/-- State of one `Model` instance (api-resource.js lines 15-259).  `promises`
holds the identities of the operation handles currently in
`this.promises`. -/
structure MState where
  attributes : Obj
  getParams : Obj
  synced : Bool
  new : Bool
  deleted : Bool
  promises : List Nat
  deriving Repr

instance : Inhabited MState :=
  ⟨⟨[], [], false, true, false, []⟩⟩

/-- State of a `Resource` (lines 581-990).  `Model` objects are shared by
reference in JS, so they live in an explicit heap and are referred to by
address.  `models` is the model cache of one endpoint namespace (the
namespaces created by `__getCache` are independent and isomorphic, and every
claim concerns operations within a single namespace); `collections` records
which keys are present in the collection cache (its values are never read by
the embedded operations, only created, invalidated and deleted). -/
structure RState where
  idKey : String
  heap : List MState
  models : List (String × Nat)
  collections : List String
  deriving Repr

/-- Dereference a model address (JS would have the object itself). -/
def modelAt (r : RState) (a : Nat) : MState :=
  (r.heap[a]?).getD default

/-- Mutate the model object at address `a` in place. -/
def heapUpd (r : RState) (a : Nat) (f : MState → MState) : RState :=
  { r with heap := r.heap.set a (f (modelAt r a)) }

/-- Lookup in a cache object (assoc list keyed by cache-key strings). -/
def cacheGet (c : List (String × Nat)) (k : String) : Option Nat :=
  match c with
  | [] => none
  | p :: rest => if p.1 = k then some p.2 else cacheGet rest k

/-- `cache[key] = addr`. -/
def cacheSet (c : List (String × Nat)) (k : String) (a : Nat) : List (String × Nat) :=
  match c with
  | [] => [(k, a)]
  | p :: rest => if p.1 = k then (k, a) :: rest else p :: cacheSet rest k a

/-- `delete cache[key]`. -/
def cacheDel (c : List (String × Nat)) (k : String) : List (String × Nat) :=
  match c with
  | [] => []
  | p :: rest => if p.1 = k then rest else p :: cacheDel rest k

/-- The in-place identity coercion in `Model.set` (lines 251-257): when the
`idKey` property is present with a truthy value it is overwritten in place
with its string form (`String(...)`); null, undefined and other falsy values
are left unconverted. -/
def coerceId (idKey : String) (attrs : Obj) : Obj :=
  match olookup attrs idKey with
  | some v => if truthy v then objSet attrs idKey (.vstr (jsToString v)) else attrs
  | none => attrs

/-- `Model.prototype.set(attributes)` (lines 250-259) as it acts on the stored
attribute map: coerce the identity in the incoming object, then
`Object.assign` a deep copy onto `this.attributes`.  A deep copy of a pure
`Value` is the value itself; the aliasing aspect of `cloneDeep` is modelled
explicitly for claim C10 below. -/
def modelSetAttrs (idKey : String) (cur : Obj) (attrs : Obj) : Obj :=
  objAssign cur (coerceId idKey attrs)

/-- `new Model(data, getParams, resource)` (lines 25-58), non-throwing case:
attributes from `set(data)` on an empty map, `synced = false`, `new = true`,
no pending promises. -/
def mkModel (idKey : String) (data : Obj) (getParams : Obj) : MState :=
  { attributes := modelSetAttrs idKey [] data
    getParams := getParams
    synced := false
    new := true
    deleted := false
    promises := [] }

/-- The `id` getter (lines 242-244): `this.attributes[this.resource.idKey]`. -/
def modelId (idKey : String) (m : MState) : Option Value :=
  olookup m.attributes idKey

/-- Truthiness of `model.id`, as tested by `if (model.id)`. -/
def modelIdTruthy (idKey : String) (m : MState) : Bool :=
  match modelId idKey m with
  | some v => truthy v
  | none => false

/-- An element passed to `Collection.set` / `Resource.addModel`: raw data or
an existing `Model` instance (a heap address). -/
inductive SetInput where
  | data (v : Value)
  | modelRef (a : Nat)
  deriving Repr

/-- The `Model` constructor's validation (lines 31-41): `data` must be a
non-empty object, anything else raises a `TypeError`.  (A JS array would pass
the `typeof` test and be treated as an object of indices; that corner is not
modelled — the claims only concern plain-object data.) -/
def validModelData : Value → Option Obj
  | .vobj o => if o.isEmpty then none else some o
  | _ => none

/-- The cache-hit line `cache[cacheKey].set(model.attributes)` (line 731):
`Model.set` first coerces the identity inside the donor's attribute object in
place (the donor model at address `a` keeps pointing at that object), then
`Object.assign`s a deep copy onto the cached model at address `b`. -/
def mergeIntoCached (r : RState) (a b : Nat) : RState :=
  let donor := coerceId r.idKey (modelAt r a).attributes
  let r1 := heapUpd r a (fun ma => { ma with attributes := donor })
  heapUpd r1 b (fun mb => { mb with attributes := objAssign mb.attributes donor })

/-- `Resource.addModel(model, getParams)` (lines 719-741) for an argument that
is already a `Model`, acting on the default namespace cache.  If the model has
a truthy id it is cached under the key built from `{[idKey]: model.id}` merged
with `model.getParams`; on a hit the cached model absorbs the incoming
attributes via `mergeIntoCached` and the cached object is returned.  Without a
truthy id the model is cached under a hash of its attributes and the whole
collection cache is invalidated. -/
def addModelRef (r : RState) (a : Nat) : RState × Nat :=
  let m := modelAt r a
  if modelIdTruthy r.idKey m then
    let ck := cacheKey r.idKey [[(r.idKey, (modelId r.idKey m).getD .vundef)], m.getParams]
    match cacheGet r.models ck with
    | none => ({ r with models := cacheSet r.models ck a }, a)
    | some b => (mergeIntoCached r a b, b)
  else
    let ck := cacheKey r.idKey [m.attributes]
    ({ r with models := cacheSet r.models ck a, collections := [] }, a)

/-- `Resource.createModel(data, getParams)` (lines 704-712): instantiate a
`Model` (allocated at the end of the heap) and `addModel` it. -/
def createModel (r : RState) (data : Obj) (gp : Obj) : RState × Nat :=
  let m := mkModel r.idKey data gp
  let r1 := { r with heap := r.heap ++ [m] }
  addModelRef r1 r.heap.length

/-- `Resource.addModel(model, getParams)` (lines 719-741): raw data is routed
through `createModel`, a `Model` instance through `addModelRef`; `none`
models the constructor `TypeError` on invalid raw data. -/
def resourceAddModel (r : RState) (inp : SetInput) (gp : Obj) : Option (RState × Nat) :=
  match inp with
  | .modelRef a => some (addModelRef r a)
  | .data v =>
    match validModelData v with
    | some o => some (createModel r o gp)
    | none => none

/-! ### Support lemmas for heap, cache and object reasoning -/

theorem keys_objSet_of_mem (o : Obj) (k : String) (v : Value)
    (h : k ∈ o.map Prod.fst) : (objSet o k v).map Prod.fst = o.map Prod.fst := by
  induction o with
  | nil => simp at h
  | cons p rest ih =>
    by_cases hp : p.1 = k
    · simp [objSet, hp]
    · have hk : k ∈ rest.map Prod.fst := by
        rw [List.map_cons] at h
        rcases List.mem_cons.mp h with h1 | h1
        · exact absurd h1.symm hp
        · exact h1
      simp [objSet, hp, ih hk]

theorem olookup_objAssign (o u : Obj) (hu : (u.map Prod.fst).Nodup) (k : String) :
    olookup (objAssign o u) k =
      match olookup u k with
      | some v => some v
      | none => olookup o k := by
  induction u generalizing o with
  | nil => simp [objAssign, olookup]
  | cons p rest ih =>
    simp only [List.map_cons, List.nodup_cons] at hu
    show olookup (objAssign (objSet o p.1 p.2) rest) k = _
    rw [ih _ hu.2]
    by_cases hp : p.1 = k
    · subst hp
      have hnone : olookup rest p.1 = none := by
        cases hrest : olookup rest p.1 with
        | none => rfl
        | some w =>
          exact absurd ((olookup_isSome_iff rest p.1).mp (by simp [hrest])) hu.1
      simp [olookup, hnone, olookup_objSet]
    · simp [olookup, hp, olookup_objSet]

theorem olookup_coerceId (idKey : String) (o : Obj) (k : String) :
    olookup (coerceId idKey o) k =
      if k = idKey then
        (olookup o idKey).map (fun v => if truthy v then .vstr (jsToString v) else v)
      else olookup o k := by
  unfold coerceId
  cases hv : olookup o idKey with
  | none =>
    by_cases hk : k = idKey <;> simp [hk, hv]
  | some v =>
    by_cases ht : truthy v
    · by_cases hk : k = idKey
      · simp [hk, hv, ht, olookup_objSet]
      · have hk2 : ¬ idKey = k := fun hh => hk hh.symm
        simp [hk, hk2, hv, ht, olookup_objSet]
    · by_cases hk : k = idKey <;> simp [hk, hv, ht]

theorem cacheGet_cacheSet (c : List (String × Nat)) (k : String) (a : Nat) (k' : String) :
    cacheGet (cacheSet c k a) k' = if k = k' then some a else cacheGet c k' := by
  induction c with
  | nil => simp [cacheSet, cacheGet]
  | cons p rest ih =>
    by_cases hp : p.1 = k
    · subst hp
      by_cases hk : p.1 = k' <;> simp [cacheSet, cacheGet, hk]
    · by_cases hk : p.1 = k'
      · subst hk
        have : ¬ k = p.1 := fun hh => hp hh.symm
        simp [cacheSet, cacheGet, hp, this]
      · simp [cacheSet, cacheGet, hp, hk, ih]

theorem modelAt_heapUpd_self (r : RState) (a : Nat) (f : MState → MState)
    (h : a < r.heap.length) : modelAt (heapUpd r a f) a = f (modelAt r a) := by
  simp [modelAt, heapUpd, List.getElem?_set_self h]

theorem modelAt_heapUpd_ne (r : RState) (a : Nat) (f : MState → MState) (b : Nat)
    (h : a ≠ b) : modelAt (heapUpd r a f) b = modelAt r b := by
  simp [modelAt, heapUpd, List.getElem?_set_ne h]

theorem modelAt_append_lt (r : RState) (m : MState) (a : Nat) (h : a < r.heap.length) :
    modelAt { r with heap := r.heap ++ [m] } a = modelAt r a := by
  simp [modelAt, List.getElem?_append_left h]

theorem modelAt_append_fresh (r : RState) (m : MState) :
    modelAt { r with heap := r.heap ++ [m] } r.heap.length = m := by
  simp [modelAt, List.getElem?_concat_length]

theorem keys_coerceId (idKey : String) (o : Obj) :
    (coerceId idKey o).map Prod.fst = o.map Prod.fst := by
  unfold coerceId
  cases hv : olookup o idKey with
  | none => rfl
  | some v =>
    by_cases ht : truthy v
    · simp only [ht, if_true]
      exact keys_objSet_of_mem o idKey _
        ((olookup_isSome_iff o idKey).mp (by simp [hv]))
    · simp [ht]

theorem modelId_mkModel (idKey : String) (d gp : Obj)
    (hnd : (d.map Prod.fst).Nodup) (v : Value)
    (hv : olookup d idKey = some v) (ht : truthy v = true) :
    modelId idKey (mkModel idKey d gp) = some (.vstr (jsToString v)) := by
  show olookup (objAssign [] (coerceId idKey d)) idKey = _
  rw [olookup_objAssign _ _ (by rw [keys_coerceId]; exact hnd)]
  rw [olookup_coerceId]
  simp [hv, ht]

/-- Every address stored in the model cache points into the heap. -/
def cacheWF (r : RState) : Prop :=
  ∀ k a, cacheGet r.models k = some a → a < r.heap.length

theorem heap_length_heapUpd (r : RState) (a : Nat) (f : MState → MState) :
    (heapUpd r a f).heap.length = r.heap.length := by
  simp [heapUpd]

theorem models_heapUpd (r : RState) (a : Nat) (f : MState → MState) :
    (heapUpd r a f).models = r.models := rfl

/-- Effect of the `cache[cacheKey].set(model.attributes)` merge: the cached
model's attributes absorb the (identity-coerced) donor attributes; the cache
maps, heap length and configuration are untouched. -/
theorem mergeIntoCached_spec (r : RState) (a b : Nat) (hab : a ≠ b)
    (hb : b < r.heap.length) :
    (modelAt (mergeIntoCached r a b) b).attributes =
      objAssign (modelAt r b).attributes (coerceId r.idKey (modelAt r a).attributes) ∧
    (mergeIntoCached r a b).models = r.models ∧
    (mergeIntoCached r a b).heap.length = r.heap.length ∧
    (mergeIntoCached r a b).idKey = r.idKey := by
  unfold mergeIntoCached
  refine ⟨?_, rfl, by rw [heap_length_heapUpd, heap_length_heapUpd], rfl⟩
  rw [modelAt_heapUpd_self _ _ _ (by rw [heap_length_heapUpd]; exact hb)]
  rw [modelAt_heapUpd_ne _ _ _ _ hab]

/-- `Resource.addModel` on a `Model` whose id is a truthy (non-empty) string:
the branch taken is the id-keyed cache branch. -/
theorem addModelRef_truthy (r : RState) (a : Nat) (s : String) (gp : Obj)
    (hid : modelId r.idKey (modelAt r a) = some (.vstr s)) (hs : s ≠ "")
    (hgp : (modelAt r a).getParams = gp) :
    addModelRef r a =
      (match cacheGet r.models (cacheKey r.idKey [[(r.idKey, .vstr s)], gp]) with
        | none =>
          ({ r with models :=
              cacheSet r.models (cacheKey r.idKey [[(r.idKey, .vstr s)], gp]) a }, a)
        | some b => (mergeIntoCached r a b, b)) := by
  have hidt : modelIdTruthy r.idKey (modelAt r a) = true := by
    simp [modelIdTruthy, hid, truthy, hs]
  unfold addModelRef
  simp only [hidt, hid, hgp, Option.getD_some, eq_self_iff_true, if_true]

/-- What `Resource.createModel`/`addModel` does for raw data carrying a truthy
identity: the model is cached under the key built from the coerced identity
and `getParams`; a cache miss registers the fresh model, a cache hit merges
the attributes into the cached model and returns the cached address. -/
theorem createModel_truthyId (r : RState) (d gp : Obj) (v : Value)
    (hwf : cacheWF r) (hnd : (d.map Prod.fst).Nodup)
    (hv : olookup d r.idKey = some v) (ht : truthy v = true)
    (hs : jsToString v ≠ "") (r' : RState) (a : Nat)
    (h : createModel r d gp = (r', a)) :
    r'.idKey = r.idKey ∧
    r'.heap.length = r.heap.length + 1 ∧
    cacheWF r' ∧
    cacheGet r'.models (cacheKey r.idKey [[(r.idKey, .vstr (jsToString v))], gp]) = some a ∧
    a < r'.heap.length ∧
    (cacheGet r.models (cacheKey r.idKey [[(r.idKey, .vstr (jsToString v))], gp]) = none →
      modelAt r' a = mkModel r.idKey d gp) ∧
    (∀ b, cacheGet r.models (cacheKey r.idKey [[(r.idKey, .vstr (jsToString v))], gp]) = some b →
      a = b ∧ (modelAt r' a).attributes =
        objAssign (modelAt r a).attributes
          (coerceId r.idKey (mkModel r.idKey d gp).attributes)) := by
  have hAt : modelAt { r with heap := r.heap ++ [mkModel r.idKey d gp] } r.heap.length =
      mkModel r.idKey d gp := modelAt_append_fresh r _
  have hid2 : modelId ({ r with heap := r.heap ++ [mkModel r.idKey d gp] } : RState).idKey
      (modelAt { r with heap := r.heap ++ [mkModel r.idKey d gp] } r.heap.length) =
      some (.vstr (jsToString v)) := by
    rw [hAt]
    exact modelId_mkModel r.idKey d gp hnd v hv ht
  have hgp2 : (modelAt { r with heap := r.heap ++ [mkModel r.idKey d gp] }
      r.heap.length).getParams = gp := by
    rw [hAt]
    rfl
  have hstep := addModelRef_truthy { r with heap := r.heap ++ [mkModel r.idKey d gp] }
    r.heap.length (jsToString v) gp hid2 hs hgp2
  unfold createModel at h
  rw [hstep] at h
  dsimp only at h
  cases hc : cacheGet r.models (cacheKey r.idKey [[(r.idKey, .vstr (jsToString v))], gp]) with
  | none =>
    rw [hc] at h
    injection h with hr' ha
    refine ⟨by rw [← hr'], by rw [← hr']; simp, ?_, ?_, ?_, ?_, ?_⟩
    · intro k b hkb
      rw [← hr'] at hkb ⊢
      dsimp only at hkb ⊢
      simp only [cacheGet_cacheSet] at hkb
      simp only [List.length_append, List.length_cons, List.length_nil]
      split at hkb
      · cases hkb; omega
      · have := hwf k b hkb; omega
    · rw [← hr', ← ha]
      dsimp only
      rw [cacheGet_cacheSet, if_pos rfl]
    · rw [← hr', ← ha]; simp
    · intro _
      rw [← hr', ← ha]
      exact hAt
    · intro b hb
      simp at hb
  | some b =>
    rw [hc] at h
    injection h with hr' ha
    have hb : b < r.heap.length := hwf _ _ hc
    have hb0 : b < ({ r with heap := r.heap ++ [mkModel r.idKey d gp] } : RState).heap.length := by
      simp
      omega
    have hnb : r.heap.length ≠ b := by omega
    obtain ⟨hattr, hmodels2, hlen2, hidk2⟩ :=
      mergeIntoCached_spec { r with heap := r.heap ++ [mkModel r.idKey d gp] }
        r.heap.length b hnb hb0
    refine ⟨by rw [← hr', hidk2], ?_, ?_, ?_, ?_, ?_, ?_⟩
    · rw [← hr', hlen2]; simp
    · intro k c hkc
      rw [← hr', hlen2]
      rw [← hr', hmodels2] at hkc
      dsimp only at hkc ⊢
      have := hwf k c hkc
      simp only [List.length_append, List.length_cons, List.length_nil]
      omega
    · rw [← hr', hmodels2, ← ha]
      exact hc
    · rw [← hr', ← ha, hlen2]
      simp
      omega
    · intro hnone
      simp at hnone
    · intro b' hb'
      injection hb' with hbb
      subst hbb
      refine ⟨ha.symm, ?_⟩
      rw [← hr', ← ha, hattr, hAt]
      rw [modelAt_append_lt r _ b hb]

/-- Registry scenario for the C4 counterexample: a fresh resource with
`idKey = "id"`. -/
def c4r0 : RState := ⟨"id", [], [], []⟩

/-- First insertion: data with identity "1" under getParams `{p: 1}`. -/
def c4step1 : Option (RState × Nat) :=
  resourceAddModel c4r0 (.data (.vobj [("id", .vstr "1"), ("a", .vnum 1)])) [("p", .vnum 1)]

/-- Second insertion: data with the same identity "1" but getParams `{p: 2}`. -/
def c4step2 : Option (RState × Nat) :=
  match c4step1 with
  | some (r1, _) =>
    resourceAddModel r1 (.data (.vobj [("id", .vstr "1"), ("a", .vnum 2)])) [("p", .vnum 2)]
  | none => none

/-- Counterexample to C4 as stated: the model cache key merges the identity
with the model's `getParams`, so two `addModel` insertions of data resolving
to the same identity "1" in the same (default) endpoint namespace, but with
different `getParams`, produce two distinct `Model` objects (addresses 0 and
1), both with identity "1", and return different references. -/
theorem addModel_same_identity_two_objects :
    c4step1.map Prod.snd = some 0 ∧
    c4step2.map Prod.snd = some 1 ∧
    c4step2.map (fun rb => (modelId "id" (modelAt rb.1 0), modelId "id" (modelAt rb.1 1))) =
      some (some (.vstr "1"), some (.vstr "1")) ∧
    (0 : Nat) ≠ 1 :=
  ⟨rfl, rfl, rfl, by decide⟩

/-- C4 amended: uniqueness and sharing hold per (identity, getParams) cache
key rather than per identity alone.  Two raw-data insertions whose resolved
(string-coerced, truthy, non-empty) identities agree and whose getParams are
the same return the same object reference, and after the second insertion the
shared object's attributes are the merge of its previous attributes with the
second insertion's (identity-coerced) attributes. -/
theorem addModel_same_identity_same_params_shared
    (r : RState) (d1 d2 gp : Obj) (v1 v2 : Value)
    (hwf : cacheWF r)
    (hnd1 : (d1.map Prod.fst).Nodup) (hnd2 : (d2.map Prod.fst).Nodup)
    (hv1 : olookup d1 r.idKey = some v1) (ht1 : truthy v1 = true)
    (hv2 : olookup d2 r.idKey = some v2) (ht2 : truthy v2 = true)
    (hsame : jsToString v1 = jsToString v2) (hs1 : jsToString v1 ≠ "")
    (r1 r2 : RState) (a1 a2 : Nat)
    (h1 : resourceAddModel r (.data (.vobj d1)) gp = some (r1, a1))
    (h2 : resourceAddModel r1 (.data (.vobj d2)) gp = some (r2, a2)) :
    a2 = a1 ∧
    (modelAt r2 a1).attributes =
      objAssign (modelAt r1 a1).attributes
        (coerceId r.idKey (mkModel r.idKey d2 gp).attributes) := by
  have hd1 : validModelData (.vobj d1) = some d1 := by
    cases d1 with
    | nil => simp [olookup] at hv1
    | cons p rest => rfl
  rw [show resourceAddModel r (.data (.vobj d1)) gp
      = some (createModel r d1 gp) from by simp [resourceAddModel, hd1]] at h1
  injection h1 with h1'
  obtain ⟨hk1, hlen1, hwf1, hget1, ha1lt, hmiss1, hhit1⟩ :=
    createModel_truthyId r d1 gp v1 hwf hnd1 hv1 ht1 hs1 r1 a1 h1'
  have hv2' : olookup d2 r1.idKey = some v2 := by rw [hk1]; exact hv2
  have hs2 : jsToString v2 ≠ "" := by rw [← hsame]; exact hs1
  have hd2 : validModelData (.vobj d2) = some d2 := by
    cases d2 with
    | nil => simp [olookup] at hv2
    | cons p rest => rfl
  rw [show resourceAddModel r1 (.data (.vobj d2)) gp
      = some (createModel r1 d2 gp) from by simp [resourceAddModel, hd2]] at h2
  injection h2 with h2'
  obtain ⟨hk2, hlen2, hwf2, hget2, ha2lt, hmiss2, hhit2⟩ :=
    createModel_truthyId r1 d2 gp v2 hwf1 hnd2 hv2' ht2 hs2 r2 a2 h2'
  have hkeyeq : cacheKey r1.idKey [[(r1.idKey, Value.vstr (jsToString v2))], gp]
      = cacheKey r.idKey [[(r.idKey, Value.vstr (jsToString v1))], gp] := by
    rw [hk1, hsame]
  obtain ⟨haa, hmerge⟩ := hhit2 a1 (by rw [hkeyeq]; exact hget1)
  refine ⟨haa, ?_⟩
  rw [haa] at hmerge
  rw [hk1] at hmerge
  exact hmerge

/-- Concrete registry for the C4 witness. -/
def c4w_r0 : RState := ⟨"id", [], [], []⟩

/-- First witness insertion: `{id: "1", a: 1}`. -/
def c4w_d1 : Obj := [("id", .vstr "1"), ("a", .vnum 1)]

/-- Second witness insertion: `{id: "1", b: 2}`. -/
def c4w_d2 : Obj := [("id", .vstr "1"), ("b", .vnum 2)]

/-- Registry after the first witness insertion. -/
def c4w_r1 : RState :=
  ((resourceAddModel c4w_r0 (.data (.vobj c4w_d1)) []).getD (c4w_r0, 0)).1

/-- Registry after the second witness insertion. -/
def c4w_r2 : RState :=
  ((resourceAddModel c4w_r1 (.data (.vobj c4w_d2)) []).getD (c4w_r0, 0)).1

/-- Witness for the amended C4: inserting `{id:"1", a:1}` and then
`{id:"1", b:2}` with the same (empty) getParams returns the same reference
(address 0) and merges the attributes. -/
theorem addModel_same_identity_same_params_shared_witness :
    0 = 0 ∧
    (modelAt c4w_r2 0).attributes =
      objAssign (modelAt c4w_r1 0).attributes
        (coerceId "id" (mkModel "id" c4w_d2 []).attributes) :=
  addModel_same_identity_same_params_shared c4w_r0 c4w_d1 c4w_d2 []
    (.vstr "1") (.vstr "1")
    (fun k a h => by simp [cacheGet] at h)
    (by decide) (by decide)
    rfl rfl rfl rfl rfl (by decide)
    c4w_r1 c4w_r2 0 0 rfl rfl

/-! ### Collections -/

/-- State of one `Collection` instance (api-resource.js lines 265-575).
`models` holds the member model addresses in order, `model_map` is
`this._model_map` (dedup key to member), `_synced` and `_new` are the
backing fields behind the getter/setter pairs. -/
structure CState where
  getParams : Obj
  models : List Nat
  model_map : List (String × Nat)
  metadata : Option Obj
  _synced : Bool
  _new : Bool
  promises : List Nat
  deriving Repr

/-- The `synced` getter (lines 536-540):
`this.models.reduce((synced, model) => synced && model.synced, this._synced)`. -/
def collectionSynced (r : RState) (c : CState) : Bool :=
  c.models.foldl (fun syn a => syn && (modelAt r a).synced) c._synced

/-- The `synced` setter (lines 547-554): store the value in `_synced`, and
only if the value is true also set every member model's `synced` to true. -/
def collectionSetSynced (r : RState) (c : CState) (value : Bool) : RState × CState :=
  let c' := { c with _synced := value }
  if value then
    (c.models.foldl (fun racc a => heapUpd racc a (fun m => { m with synced := true })) r, c')
  else
    (r, c')

/-- The `new` getter (lines 556-560):
`this.models.reduce((isNew, model) => isNew && model.new, this._new)`. -/
def collectionNew (r : RState) (c : CState) : Bool :=
  c.models.foldl (fun isNew a => isNew && (modelAt r a).new) c._new

/-- The `new` setter (lines 567-574): store the value in `_new`, and only if
the value is false also set every member model's `new` to false. -/
def collectionSetNew (r : RState) (c : CState) (value : Bool) : RState × CState :=
  let c' := { c with _new := value }
  if value then
    (r, c')
  else
    (c.models.foldl (fun racc a => heapUpd racc a (fun m => { m with new := false })) r, c')

theorem modelAt_heapUpd_oob (r : RState) (a : Nat) (f : MState → MState) (b : Nat)
    (h : ¬ a < r.heap.length) : modelAt (heapUpd r a f) b = modelAt r b := by
  simp only [modelAt, heapUpd]
  rw [List.set_eq_of_length_le (by omega)]

theorem foldl_heapUpd_length (g : MState → MState) :
    ∀ (l : List Nat) (r : RState),
      (l.foldl (fun racc a => heapUpd racc a g) r).heap.length = r.heap.length
  | [], _ => rfl
  | a :: l, r => by
    rw [List.foldl_cons, foldl_heapUpd_length g l, heap_length_heapUpd]

theorem foldl_heapUpd_pres (g : MState → MState) (P : MState → Prop)
    (hpres : ∀ m, P m → P (g m)) :
    ∀ (l : List Nat) (r : RState) (b : Nat), P (modelAt r b) →
      P (modelAt (l.foldl (fun racc a => heapUpd racc a g) r) b)
  | [], _, _, h => h
  | a :: l, r, b, h => by
    rw [List.foldl_cons]
    apply foldl_heapUpd_pres g P hpres l
    by_cases hab : a = b
    · subst hab
      by_cases hlt : a < r.heap.length
      · rw [modelAt_heapUpd_self _ _ _ hlt]
        exact hpres _ h
      · rw [modelAt_heapUpd_oob _ _ _ _ hlt]
        exact h
    · rw [modelAt_heapUpd_ne _ _ _ _ hab]
      exact h

theorem foldl_heapUpd_mem (g : MState → MState) (P : MState → Prop)
    (hset : ∀ m, P (g m)) (hpres : ∀ m, P m → P (g m)) :
    ∀ (l : List Nat) (r : RState) (b : Nat), b ∈ l → b < r.heap.length →
      P (modelAt (l.foldl (fun racc a => heapUpd racc a g) r) b)
  | [], _, _, hmem, _ => by cases hmem
  | a :: l, r, b, hmem, hlt => by
    rw [List.foldl_cons]
    rcases List.mem_cons.mp hmem with hab | hb
    · subst hab
      apply foldl_heapUpd_pres g P hpres
      rw [modelAt_heapUpd_self _ _ _ hlt]
      exact hset _
    · exact foldl_heapUpd_mem g P hset hpres l _ b hb
        (by rw [heap_length_heapUpd]; exact hlt)

theorem foldl_and_all (f : Nat → Bool) :
    ∀ (l : List Nat) (init : Bool),
      l.foldl (fun acc a => acc && f a) init = (init && l.all f)
  | [], init => by simp
  | a :: l, init => by
    rw [List.foldl_cons, foldl_and_all f l]
    simp [Bool.and_assoc]

/-- Registry for the C2 counterexample: one model, currently synced and not
new. -/
def c2r : RState :=
  ⟨"id", [⟨[("id", .vstr "1")], [], true, false, false, []⟩], [("1", 0)], []⟩

/-- Collection for the C2 counterexample, containing that model. -/
def c2c : CState :=
  ⟨[], [0], [("1", 0)], none, true, false, []⟩

/-- Counterexample to C2 as stated: assigning `synced = false` does not
propagate false to the member (the member stays `synced = true`), and
assigning `new = true` does not propagate true to the member (the member
stays `new = false`); each setter cascades only one of the two values. -/
theorem collection_setter_cascade_only_one_value :
    (modelAt (collectionSetSynced c2r c2c false).1 0).synced = true ∧
    (collectionSetSynced c2r c2c false).2._synced = false ∧
    (modelAt (collectionSetNew c2r c2c true).1 0).new = false ∧
    (collectionSetNew c2r c2c true).2._new = true :=
  ⟨rfl, rfl, rfl, rfl⟩

/-- C2 amended: reading `synced` (resp. `new`) is the aggregate "own flag AND
every member's flag"; assigning `synced = true` cascades true to every member
while `synced = false` changes only the collection's own flag; assigning
`new = false` cascades false to every member while `new = true` changes only
the collection's own flag. -/
theorem collection_synced_new_aggregate_cascade (r : RState) (c : CState)
    (hwfc : ∀ a ∈ c.models, a < r.heap.length) :
    (collectionSynced r c = true ↔
      (c._synced = true ∧ ∀ a ∈ c.models, (modelAt r a).synced = true)) ∧
    (collectionNew r c = true ↔
      (c._new = true ∧ ∀ a ∈ c.models, (modelAt r a).new = true)) ∧
    ((collectionSetSynced r c true).2._synced = true ∧
      ∀ a ∈ c.models, (modelAt (collectionSetSynced r c true).1 a).synced = true) ∧
    ((collectionSetSynced r c false).2._synced = false ∧
      (collectionSetSynced r c false).1 = r) ∧
    ((collectionSetNew r c false).2._new = false ∧
      ∀ a ∈ c.models, (modelAt (collectionSetNew r c false).1 a).new = false) ∧
    ((collectionSetNew r c true).2._new = true ∧
      (collectionSetNew r c true).1 = r) := by
  refine ⟨?_, ?_, ⟨rfl, ?_⟩, ⟨rfl, rfl⟩, ⟨rfl, ?_⟩, ⟨rfl, rfl⟩⟩
  · unfold collectionSynced
    rw [foldl_and_all]
    simp [List.all_eq_true]
  · unfold collectionNew
    rw [foldl_and_all]
    simp [List.all_eq_true]
  · intro a ha
    show (modelAt (c.models.foldl
      (fun racc b => heapUpd racc b (fun m => { m with synced := true })) r) a).synced = true
    exact foldl_heapUpd_mem (fun m => { m with synced := true })
      (fun m => m.synced = true) (fun _ => rfl)
      (fun _ _ => rfl) c.models r a ha (hwfc a ha)
  · intro a ha
    show (modelAt (c.models.foldl
      (fun racc b => heapUpd racc b (fun m => { m with new := false })) r) a).new = false
    exact foldl_heapUpd_mem (fun m => { m with new := false })
      (fun m => m.new = false) (fun _ => rfl)
      (fun _ _ => rfl) c.models r a ha (hwfc a ha)

/-- Witness for the amended C2 at the concrete one-member collection. -/
theorem collection_synced_new_aggregate_cascade_witness :
    ((collectionSynced c2r c2c = true ↔
      (c2c._synced = true ∧ ∀ a ∈ c2c.models, (modelAt c2r a).synced = true)) ∧
    (collectionNew c2r c2c = true ↔
      (c2c._new = true ∧ ∀ a ∈ c2c.models, (modelAt c2r a).new = true)) ∧
    ((collectionSetSynced c2r c2c true).2._synced = true ∧
      ∀ a ∈ c2c.models, (modelAt (collectionSetSynced c2r c2c true).1 a).synced = true) ∧
    ((collectionSetSynced c2r c2c false).2._synced = false ∧
      (collectionSetSynced c2r c2c false).1 = c2r) ∧
    ((collectionSetNew c2r c2c false).2._new = false ∧
      ∀ a ∈ c2c.models, (modelAt (collectionSetNew c2r c2c false).1 a).new = false) ∧
    ((collectionSetNew c2r c2c true).2._new = true ∧
      (collectionSetNew c2r c2c true).1 = c2r)) :=
  collection_synced_new_aggregate_cascade c2r c2c
    (by intro a ha; simp [c2c] at ha; subst ha; simp [c2r])

/-- Result of running `Collection.set` over a list of elements: final registry
and collection state, the dedup key computed for each processed element, and
whether a constructor `TypeError` was thrown (aborting the `forEach` and
leaving the partial state in place). -/
structure SetRes where
  r : RState
  c : CState
  keys : List String
  threw : Bool
  deriving Repr

/-- The `getParams` handed to `addModel` by `Collection.set` (line 503):
`this.getParams.fields ? { fields: this.getParams.fields } : {}`. -/
def setFieldParams (c : CState) : Obj :=
  match olookup c.getParams "fields" with
  | some v => if truthy v then [("fields", v)] else []
  | none => []

/-- The dedup key computed by `Collection.set` (lines 509-514) for the
resolved model at `addr`: the model's id when truthy, otherwise
`__cacheKey` of its attribute map. -/
def dedupKeyOf (r : RState) (addr : Nat) : String :=
  match olookup (modelAt r addr).attributes r.idKey with
  | some v =>
    if truthy v then jsToString v else cacheKey r.idKey [(modelAt r addr).attributes]
  | none => cacheKey r.idKey [(modelAt r addr).attributes]

/-- `Collection.set(models)` (lines 494-520), element by element.  Each
element is resolved to a shared model via `Resource.addModel`; an element
whose dedup key is already in `_model_map` is not inserted again. -/
def collectionSetAux (r : RState) (c : CState) : List SetInput → SetRes
  | [] => ⟨r, c, [], false⟩
  | inp :: rest =>
    match resourceAddModel r inp (setFieldParams c) with
    | none => ⟨r, c, [], true⟩
    | some (r1, addr) =>
      let ck := dedupKeyOf r1 addr
      let c1 := match cacheGet c.model_map ck with
        | some _ => c
        | none =>
          { c with model_map := c.model_map ++ [(ck, addr)], models := c.models ++ [addr] }
      let res := collectionSetAux r1 c1 rest
      ⟨res.r, res.c, ck :: res.keys, res.threw⟩

/-- `Collection.set(models)`: the state after processing the elements (a
non-array argument is wrapped in a singleton list by the source). -/
def collectionSet (r : RState) (c : CState) (inputs : List SetInput) : RState × CState :=
  let res := collectionSetAux r c inputs
  (res.r, res.c)

/-- Fold the second list into the first, keeping only first occurrences: the
membership index's key set grows by exactly the distinct new keys, in
order. -/
def dedupInto (acc : List String) (l : List String) : List String :=
  l.foldl (fun acc k => if k ∈ acc then acc else acc ++ [k]) acc

theorem cacheGet_isSome_iff (c : List (String × Nat)) (k : String) :
    (cacheGet c k).isSome = true ↔ k ∈ c.map Prod.fst := by
  induction c with
  | nil => simp [cacheGet]
  | cons p rest ih =>
    by_cases hp : p.1 = k
    · simp [cacheGet, hp]
    · have hne : ¬ k = p.1 := fun hh => hp hh.symm
      simp [cacheGet, hp, hne, ih]

/-- One step of the insert-if-absent fold. -/
theorem dedupInto_cons (acc : List String) (k : String) (ks : List String) :
    dedupInto acc (k :: ks) = dedupInto (if k ∈ acc then acc else acc ++ [k]) ks := rfl

/-- After `Collection.set`, the membership index holds exactly one entry per
distinct dedup key: its key list is the old key list extended with the first
occurrence of each processed element's dedup key, it stays duplicate-free,
and it stays in one-to-one correspondence with the member list. -/
theorem collectionSetAux_dedup (r : RState) (c : CState) (inputs : List SetInput)
    (hnd : (c.model_map.map Prod.fst).Nodup)
    (hlen : c.models.length = c.model_map.length)
    (hthr : (collectionSetAux r c inputs).threw = false) :
    (collectionSetAux r c inputs).c.model_map.map Prod.fst =
      dedupInto (c.model_map.map Prod.fst) (collectionSetAux r c inputs).keys ∧
    ((collectionSetAux r c inputs).c.model_map.map Prod.fst).Nodup ∧
    (collectionSetAux r c inputs).c.models.length =
      (collectionSetAux r c inputs).c.model_map.length := by
  induction inputs generalizing r c with
  | nil => exact ⟨rfl, hnd, hlen⟩
  | cons inp rest ih =>
    simp only [collectionSetAux] at hthr ⊢
    cases hadd : resourceAddModel r inp (setFieldParams c) with
    | none =>
      rw [hadd] at hthr
      simp at hthr
    | some pr =>
      obtain ⟨r1, addr⟩ := pr
      rw [hadd] at hthr
      simp only [] at hthr ⊢
      cases hmem : cacheGet c.model_map (dedupKeyOf r1 addr) with
      | some x =>
        rw [hmem] at hthr
        simp only [] at hthr ⊢
        have hkmem : dedupKeyOf r1 addr ∈ c.model_map.map Prod.fst :=
          (cacheGet_isSome_iff _ _).mp (by simp [hmem])
        obtain ⟨h1, h2, h3⟩ := ih r1 c hnd hlen hthr
        exact ⟨by rw [h1, dedupInto_cons, if_pos hkmem], h2, h3⟩
      | none =>
        rw [hmem] at hthr
        simp only [] at hthr ⊢
        have hkmem : dedupKeyOf r1 addr ∉ c.model_map.map Prod.fst := by
          intro hin
          have := (cacheGet_isSome_iff c.model_map (dedupKeyOf r1 addr)).mpr hin
          rw [hmem] at this
          simp at this
        have hnd1 : (((c.model_map ++ [(dedupKeyOf r1 addr, addr)]).map Prod.fst)).Nodup := by
          rw [List.map_append]
          simp [List.nodup_append, hnd, hkmem]
        have hlen1 : (c.models ++ [addr]).length =
            (c.model_map ++ [(dedupKeyOf r1 addr, addr)]).length := by
          simp [hlen]
        obtain ⟨h1, h2, h3⟩ := ih r1
          { c with model_map := c.model_map ++ [(dedupKeyOf r1 addr, addr)],
                   models := c.models ++ [addr] } hnd1 hlen1 hthr
        refine ⟨?_, h2, h3⟩
        rw [h1, dedupInto_cons, if_neg hkmem]
        simp

/-- A registry holding two `Model` objects with the same identity `"1"`: the
collection member at address 0 (cached under identity plus empty
`getParams`), and a second model at address 1 whose `getParams` is
`{p: 1}`. -/
def c5xr : RState :=
  ⟨"id",
   [⟨[("id", .vstr "1"), ("a", .vnum 1)], [], true, false, false, []⟩,
    ⟨[("id", .vstr "1"), ("b", .vnum 2)], [("p", .vnum 1)], true, false, false, []⟩],
   [(cacheKey "id" [[("id", .vstr "1")], []], 0)],
   []⟩

/-- A collection holding the model at address 0, indexed under its dedup key
`"1"`. -/
def c5xc : CState := ⟨[], [0], [("1", 0)], none, true, false, []⟩

/-- C5: counterexample.  Passing to `Collection.set` a `Model` whose dedup
key `"1"` is already in the membership index, but whose `getParams` differ
from the member's, leaves the index and member list unchanged (the element
is skipped) — yet nothing is merged into the existing member: the resolve
step keys the registry by identity merged with the element's own
`getParams` (line 727), misses the cache, registers the element as a second
object, and the member at address 0 never receives the element's `b`
attribute.  So a skipped duplicate's attributes are not, in general, merged
into the existing shared Model. -/
theorem collection_set_duplicate_key_skipped_without_merge :
    (collectionSet c5xr c5xc [.modelRef 1]).2.models = [0] ∧
    (collectionSet c5xr c5xc [.modelRef 1]).2.model_map = [("1", 0)] ∧
    (modelAt (collectionSet c5xr c5xc [.modelRef 1]).1 0).attributes
      = [("id", .vstr "1"), ("a", .vnum 1)] ∧
    olookup (modelAt (collectionSet c5xr c5xc [.modelRef 1]).1 0).attributes "b"
      = none ∧
    (modelAt (collectionSet c5xr c5xc [.modelRef 1]).1 1).attributes
      = [("id", .vstr "1"), ("b", .vnum 2)] ∧
    (collectionSet c5xr c5xc [.modelRef 1]).1.models.length = 2 :=
  ⟨rfl, rfl, rfl, rfl, rfl, rfl⟩

/-- C5 (amended): after `Collection.set` the membership index holds exactly
one entry per distinct dedup key — its key list is the old key list extended
with the first occurrence of each processed element's dedup key, it stays
duplicate-free and in one-to-one correspondence with the member list, and an
element whose dedup key is already present is not inserted again.  Whether
the skipped element's attributes reach a cached model is decided by the
resolve step (`Resource.addModel`), which is keyed by the identity merged
with the element's own `getParams`: on a cache hit the cached model absorbs
the element's attributes (`Object.assign` of the id-coerced attribute map)
and the cached address is returned, while on a cache miss the element is
registered as a separate object and no existing model's state changes. -/
theorem collectionSet_dedup_and_conditional_merge (r : RState) (c : CState)
    (inputs : List SetInput)
    (hnd : (c.model_map.map Prod.fst).Nodup)
    (hlen : c.models.length = c.model_map.length)
    (hthr : (collectionSetAux r c inputs).threw = false) :
    ((collectionSetAux r c inputs).c.model_map.map Prod.fst =
      dedupInto (c.model_map.map Prod.fst) (collectionSetAux r c inputs).keys ∧
    ((collectionSetAux r c inputs).c.model_map.map Prod.fst).Nodup ∧
    (collectionSetAux r c inputs).c.models.length =
      (collectionSetAux r c inputs).c.model_map.length) ∧
    (∀ a b s, modelId r.idKey (modelAt r a) = some (.vstr s) → s ≠ "" →
      a ≠ b → b < r.heap.length →
      cacheGet r.models
          (cacheKey r.idKey [[(r.idKey, .vstr s)], (modelAt r a).getParams])
        = some b →
      (addModelRef r a).2 = b ∧
      (modelAt (addModelRef r a).1 b).attributes
        = objAssign (modelAt r b).attributes
            (coerceId r.idKey (modelAt r a).attributes)) ∧
    (∀ a s, modelId r.idKey (modelAt r a) = some (.vstr s) → s ≠ "" →
      cacheGet r.models
          (cacheKey r.idKey [[(r.idKey, .vstr s)], (modelAt r a).getParams])
        = none →
      (addModelRef r a).2 = a ∧
      ∀ b, modelAt (addModelRef r a).1 b = modelAt r b) := by
  refine ⟨collectionSetAux_dedup r c inputs hnd hlen hthr, ?_, ?_⟩
  · intro a b s hid hs hab hb hcache
    have hstep := addModelRef_truthy r a s (modelAt r a).getParams hid hs rfl
    rw [hstep, hcache]
    exact ⟨rfl, (mergeIntoCached_spec r a b hab hb).1⟩
  · intro a s hid hs hcache
    have hstep := addModelRef_truthy r a s (modelAt r a).getParams hid hs rfl
    rw [hstep, hcache]
    exact ⟨rfl, fun b => rfl⟩

/-- Registry for the C5 witness: a fresh resource. -/
def c5r : RState := ⟨"id", [], [], []⟩

/-- Collection for the C5 witness: starts empty. -/
def c5c : CState := ⟨[], [], [], none, false, true, []⟩

/-- Witness inputs for C5: the identity `7` and the identity `"7"` resolve to
the same dedup key, plus one identity-less element. -/
def c5inputs : List SetInput :=
  [.data (.vobj [("id", .vnum 7)]), .data (.vobj [("id", .vstr "7")]),
   .data (.vobj [("a", .vnum 1)])]

/-- C5 witness: with a repeated dedup key among three inputs the index gets
exactly the two distinct keys, stays duplicate-free, and matches the member
list in size. -/
theorem collectionSet_dedup_and_conditional_merge_witness :
    (collectionSetAux c5r c5c c5inputs).c.model_map.map Prod.fst =
      dedupInto (c5c.model_map.map Prod.fst) (collectionSetAux c5r c5c c5inputs).keys ∧
    ((collectionSetAux c5r c5c c5inputs).c.model_map.map Prod.fst).Nodup ∧
    (collectionSetAux c5r c5c c5inputs).c.models.length =
      (collectionSetAux c5r c5c c5inputs).c.model_map.length :=
  (collectionSet_dedup_and_conditional_merge c5r c5c c5inputs (by decide) rfl rfl).1

/-! ### The asynchronous operations as step functions -/

/-- Settlement of an operation's promise handle.  `threw` models a JS
exception escaping a response handler: the promise never settles. -/
inductive Outcome where
  | resolved (v : Value)
  | rejected (v : Value)
  | threw
  deriving Repr

/-- A transport request as built by the operations and handed to
`resource.client` (the URL comes from the external URL-resolution
collaborator and is not modelled; a missing method means the client's
default read). -/
structure Request where
  method : String
  data : Option Value
  params : Option Obj
  deriving Repr

/-- Severity of a `logging` collaborator call made by an operation. -/
inductive LogLevel where
  | error
  | debug
  deriving Repr, DecidableEq

/-- Observable effects of one operation: the transport request it issued (if
any), the `logging.error` / `logging.debug` events, and whether the
`resource.logError` reporting hook was invoked. -/
structure Effects where
  request : Option Request
  logs : List LogLevel
  reported : Bool
  deriving Repr

/-- No transport call, no logs. -/
def noEffects : Effects := ⟨none, [], false⟩

/-- Remove the first occurrence of `h`. -/
def removeFirst : List Nat → Nat → List Nat
  | [], _ => []
  | a :: l, h => if a = h then l else a :: removeFirst l h

/-- `this.promises.splice(this.promises.indexOf(promise), 1)`: remove the
first occurrence of the handle; when it is absent `indexOf` returns `-1` and
`splice(-1, 1)` removes the last element. -/
def spliceOut (l : List Nat) (h : Nat) : List Nat :=
  if h ∈ l then removeFirst l h else l.dropLast

/-- `Model.set` applied to an arbitrary response value: `null` and
`undefined` fail the truthiness guard and contribute nothing, an object is
merged as usual, and a primitive makes the `in` test raise a `TypeError`
(`none`; arrays, which JS would treat as objects of indices, are also left
unmodelled). -/
def modelSetValue (idKey : String) (cur : Obj) : Value → Option Obj
  | .vobj o => some (modelSetAttrs idKey cur o)
  | .vnull => some cur
  | .vundef => some cur
  | _ => none

/-- The dirty diff computed by `Model.save` when synced (lines 118-124): the
fields of `attrs` whose value differs by deep equality (`isEqual`) from the
current attribute (`undefined` when absent). -/
def dirtyDiff (cur attrs : Obj) : Obj :=
  attrs.foldl (fun acc p =>
    if veq p.2 ((olookup cur p.1).getD .vundef) then acc
    else objSet acc p.1 p.2) []

/-- `Model.fetch(force)` (lines 66-104).  `h` identifies the operation's own
promise handle, pushed synchronously at construction; `prior` is the
settlement of `Promise.all` over the prior snapshot of `this.promises`;
`client` is the transport result (`.ok` carries `response.data`). -/
def modelFetch (r : RState) (a : Nat) (h : Nat) (force : Bool)
    (prior : Except Value Unit) (client : Except Value Value) :
    RState × Outcome × Effects :=
  let r0 := heapUpd r a (fun m => { m with promises := m.promises ++ [h] })
  match prior with
  | .error reason => (r0, .rejected reason, noEffects)
  | .ok _ =>
    let m := modelAt r0 a
    if !force && m.synced then
      (r0, .resolved (.vobj m.attributes), noEffects)
    else
      let r1 := heapUpd r0 a (fun mm => { mm with synced := false })
      let req : Request := ⟨"get", none, some (modelAt r1 a).getParams⟩
      match client with
      | .ok d =>
        match modelSetValue r1.idKey (modelAt r1 a).attributes d with
        | none => (r1, .threw, ⟨some req, [], false⟩)
        | some newAttrs =>
          let r2 := heapUpd r1 a (fun mm =>
            { mm with attributes := newAttrs, synced := true, new := false,
                      promises := spliceOut mm.promises h })
          (r2, .resolved (.vobj newAttrs), ⟨some req, [], false⟩)
      | .error e =>
        let r2 := heapUpd r1 a (fun mm => { mm with promises := spliceOut mm.promises h })
        (r2, .rejected e, ⟨some req, [], true⟩)

/-- `Model.save(attrs, exists)` (lines 113-182).  When synced the payload is
the dirty diff, otherwise the full merge; an empty payload resolves
immediately with the current data; an existing (or `exists`-forced) model is
PATCHed at its own address, a new one POSTed to the collection endpoint; on
success the response is merged in, the model is re-registered when it just
acquired an id, and the handle is cleaned up. -/
def modelSave (r : RState) (a : Nat) (h : Nat) (attrs : Obj) (exists_ : Bool)
    (prior : Except Value Unit) (client : Except Value Value) :
    RState × Outcome × Effects :=
  let r0 := heapUpd r a (fun m => { m with promises := m.promises ++ [h] })
  match prior with
  | .error reason => (r0, .rejected reason, noEffects)
  | .ok _ =>
    let m := modelAt r0 a
    let payload : Obj :=
      if m.synced then dirtyDiff m.attributes attrs
      else objAssign m.attributes attrs
    if payload.isEmpty then
      (r0, .resolved (.vobj m.attributes), noEffects)
    else
      let r1 := heapUpd r0 a (fun mm => { mm with synced := false })
      let req : Request :=
        if !m.new || exists_ then ⟨"patch", some (.vobj payload), some m.getParams⟩
        else ⟨"post", some (.vobj payload), some m.getParams⟩
      match client with
      | .ok d =>
        let oldId := modelIdTruthy r1.idKey (modelAt r1 a)
        match modelSetValue r1.idKey (modelAt r1 a).attributes d with
        | none => (r1, .threw, ⟨some req, [], false⟩)
        | some newAttrs =>
          let r2 := heapUpd r1 a (fun mm => { mm with attributes := newAttrs })
          let r3 := if !oldId && modelIdTruthy r2.idKey (modelAt r2 a) then
            (addModelRef r2 a).1 else r2
          let r4 := heapUpd r3 a (fun mm =>
            { mm with synced := true, new := false,
                      promises := spliceOut mm.promises h })
          (r4, .resolved (.vobj (modelAt r4 a).attributes), ⟨some req, [], false⟩)
      | .error e =>
        let r2 := heapUpd r1 a (fun mm => { mm with promises := spliceOut mm.promises h })
        (r2, .rejected e, ⟨some req, [], true⟩)

/-- `Resource.removeModel(model)` (lines 953-956): delete the cache slot
keyed by the model's id and getParams. -/
def resourceRemoveModel (r : RState) (a : Nat) : RState :=
  let m := modelAt r a
  let ck := cacheKey r.idKey [[(r.idKey, (modelId r.idKey m).getD .vundef)], m.getParams]
  { r with models := cacheDel r.models ck }

/-- `Model.delete()` (lines 190-232): refuse without an id; otherwise DELETE,
evict from the registry, tombstone the model and resolve with its id. -/
def modelDelete (r : RState) (a : Nat) (h : Nat)
    (prior : Except Value Unit) (client : Except Value Value) :
    RState × Outcome × Effects :=
  let r0 := heapUpd r a (fun m => { m with promises := m.promises ++ [h] })
  match prior with
  | .error reason => (r0, .rejected reason, noEffects)
  | .ok _ =>
    let m := modelAt r0 a
    if !(modelIdTruthy r0.idKey m) then
      (r0, .rejected (.vstr "Can not delete model that we do not have an id for"), noEffects)
    else
      let req : Request := ⟨"delete", none, some m.getParams⟩
      match client with
      | .ok _ =>
        let r1 := resourceRemoveModel r0 a
        let r2 := heapUpd r1 a (fun mm =>
          { mm with deleted := true, synced := false, new := true,
                    promises := spliceOut mm.promises h })
        (r2, .resolved ((modelId r2.idKey (modelAt r2 a)).getD .vundef), ⟨some req, [], false⟩)
      | .error e =>
        let r1 := heapUpd r0 a (fun mm => { mm with promises := spliceOut mm.promises h })
        (r1, .rejected e, ⟨some req, [], true⟩)

/-- The `Collection` `data` getter (lines 522-534): attribute snapshots of the
non-deleted members in order; when metadata is present the envelope form is
returned instead of the bare array. -/
def collectionData (r : RState) (c : CState) : Value :=
  let data := (c.models.filter (fun a => !(modelAt r a).deleted)).map
    (fun a => Value.vobj (modelAt r a).attributes)
  match c.metadata with
  | none => .varr data
  | some md => .vobj (objAssign [("results", .varr data)] md)

/-- `(response.data || {}).results` as tested by the envelope branch of
`Collection.fetch` (line 316): a `results` property whose value is not
`undefined` (only an object can carry one; arrays were already handled). -/
def envelopeResults : Value → Option Value
  | .vobj o =>
    match olookup o "results" with
    | some .vundef => none
    | some v => some v
    | none => none
  | _ => none

/-- The metadata accompanying an envelope response (lines 323-328): every
property except `results`, in order. -/
def envelopeMeta : Value → Obj
  | .vobj o => o.filter (fun p => p.1 ≠ "results")
  | _ => []

/-- The response object (`{data: <body>}`) that the malformed branches hand
to `reject`. -/
def respObj (d : Value) : Value := .vobj [("data", d)]

/-- Array test used by the response-shape dispatch. -/
def isArr : Value → Bool
  | .varr _ => true
  | _ => false

/-- `Collection.fetch(force)` (lines 297-358).  An array response replaces
the membership; an envelope response replaces the membership with its
`results` and stores the sibling fields as metadata; any other shape is
logged at error severity and rejected with the raw response without touching
membership. -/
def collectionFetch (r : RState) (c : CState) (h : Nat) (force : Bool)
    (prior : Except Value Unit) (client : Except Value Value) :
    RState × CState × Outcome × Effects :=
  let c0 := { c with promises := c.promises ++ [h] }
  match prior with
  | .error reason => (r, c0, .rejected reason, noEffects)
  | .ok _ =>
    if !force && collectionSynced r c0 then
      (r, c0, .resolved (collectionData r c0), noEffects)
    else
      let c1 := { c0 with _synced := false }
      let req : Request := ⟨"get", none, some c1.getParams⟩
      match client with
      | .ok d =>
        match d with
        | .varr vs =>
          let c2 := { c1 with models := [], model_map := [] }
          let res := collectionSetAux r c2 (vs.map SetInput.data)
          if res.threw then (res.r, res.c, .threw, ⟨some req, [], false⟩)
          else
            let s1 := collectionSetSynced res.r res.c true
            let s2 := collectionSetNew s1.1 s1.2 false
            let c5 := { s2.2 with promises := spliceOut s2.2.promises h }
            (s2.1, c5, .resolved (collectionData s2.1 c5), ⟨some req, [], false⟩)
        | d =>
          match envelopeResults d with
          | some rv =>
            let c2 := { c1 with models := [], model_map := [] }
            let items := match rv with
              | .varr vs => vs.map SetInput.data
              | v => [SetInput.data v]
            let res := collectionSetAux r c2 items
            if res.threw then (res.r, res.c, .threw, ⟨some req, [], false⟩)
            else
              let c3 := { res.c with metadata := some (envelopeMeta d) }
              let s1 := collectionSetSynced res.r c3 true
              let s2 := collectionSetNew s1.1 s1.2 false
              let c6 := { s2.2 with promises := spliceOut s2.2.promises h }
              (s2.1, c6, .resolved (collectionData s2.1 c6), ⟨some req, [], false⟩)
          | none =>
            let c2 := { c1 with promises := spliceOut c1.promises h }
            (r, c2, .rejected (respObj d), ⟨some req, [.error], false⟩)
      | .error e =>
        let c2 := { c1 with promises := spliceOut c1.promises h }
        (r, c2, .rejected e, ⟨some req, [], true⟩)

/-- `Collection.save(data)` (lines 366-416): refuses to update a non-new
collection with no new data (cleaning up its handle); otherwise POSTs either
the supplied data or the materialized data; an array response replaces the
membership; any other shape is logged at debug severity and rejected with
the raw response. -/
def collectionSave (r : RState) (c : CState) (h : Nat) (data : List Value)
    (prior : Except Value Unit) (client : Except Value Value) :
    RState × CState × Outcome × Effects :=
  let c0 := { c with promises := c.promises ++ [h] }
  match prior with
  | .error reason => (r, c0, .rejected reason, noEffects)
  | .ok _ =>
    if data.isEmpty && !(collectionNew r c0) then
      let c1 := { c0 with promises := spliceOut c0.promises h }
      (r, c1, .rejected (.vstr "Cannot update collections, only create them"), noEffects)
    else
      let c1 := { c0 with _synced := false }
      let payload := if data.isEmpty then collectionData r c1 else .varr data
      let req : Request := ⟨"post", some payload, none⟩
      match client with
      | .ok d =>
        match d with
        | .varr vs =>
          let c2 := { c1 with models := [], model_map := [] }
          let res := collectionSetAux r c2 (vs.map SetInput.data)
          if res.threw then (res.r, res.c, .threw, ⟨some req, [], false⟩)
          else
            let s1 := collectionSetSynced res.r res.c true
            let s2 := collectionSetNew s1.1 s1.2 false
            let c5 := { s2.2 with promises := spliceOut s2.2.promises h }
            (s2.1, c5, .resolved (collectionData s2.1 c5), ⟨some req, [], false⟩)
        | d =>
          let c2 := { c1 with promises := spliceOut c1.promises h }
          (r, c2, .rejected (respObj d), ⟨some req, [.debug], false⟩)
      | .error e =>
        let c2 := { c1 with promises := spliceOut c1.promises h }
        (r, c2, .rejected e, ⟨some req, [], true⟩)

/-- `Resource.removeCollection(collection)` (lines 958-961): delete the cache
slot keyed by the collection's getParams. -/
def resourceRemoveCollection (r : RState) (c : CState) : RState :=
  { r with collections := r.collections.erase (cacheKey r.idKey [c.getParams]) }

/-- `Collection.delete()` (lines 423-468): refuse when `getParams` is empty;
otherwise DELETE scoped by the params, evict the collection, tombstone and
evict every member, and resolve with the member ids. -/
def collectionDelete (r : RState) (c : CState) (h : Nat)
    (prior : Except Value Unit) (client : Except Value Value) :
    RState × CState × Outcome × Effects :=
  let c0 := { c with promises := c.promises ++ [h] }
  match prior with
  | .error reason => (r, c0, .rejected reason, noEffects)
  | .ok _ =>
    if c0.getParams.isEmpty then
      (r, c0, .rejected (.vstr
        "Can not delete unfiltered collection (collection without any GET params"), noEffects)
    else
      let req : Request := ⟨"delete", none, some c0.getParams⟩
      match client with
      | .ok _ =>
        let r1 := resourceRemoveCollection r c0
        let r2 := c0.models.foldl (fun racc a =>
          resourceRemoveModel (heapUpd racc a (fun m => { m with deleted := true })) a) r1
        let c1 := { c0 with promises := spliceOut c0.promises h }
        (r2, c1, .resolved (.varr (c0.models.map (fun a =>
          (modelId r2.idKey (modelAt r2 a)).getD .vundef))), ⟨some req, [], false⟩)
      | .error e =>
        let c1 := { c0 with promises := spliceOut c0.promises h }
        (r, c1, .rejected e, ⟨some req, [], true⟩)

theorem modelAt_heapUpd_preserves {α : Type} (p : MState → α) (g : MState → MState)
    (hg : ∀ m, p (g m) = p m) (r : RState) (a b : Nat) :
    p (modelAt (heapUpd r a g) b) = p (modelAt r b) := by
  by_cases hab : a = b
  · subst hab
    by_cases hlt : a < r.heap.length
    · rw [modelAt_heapUpd_self _ _ _ hlt, hg]
    · rw [modelAt_heapUpd_oob _ _ _ _ hlt]
  · rw [modelAt_heapUpd_ne _ _ _ _ hab]

theorem spliceOut_append (l : List Nat) (h : Nat) (hmem : h ∉ l) :
    spliceOut (l ++ [h]) h = l := by
  have hin : h ∈ l ++ [h] := by simp
  rw [spliceOut, if_pos hin]
  induction l with
  | nil => simp [removeFirst]
  | cons a l ih =>
    have hne : a ≠ h := by
      intro hh
      exact hmem (hh ▸ List.mem_cons_self a l)
    have hmem2 : h ∉ l := fun hh => hmem (List.mem_cons_of_mem a hh)
    rw [List.cons_append, removeFirst, if_neg hne, ih hmem2 (by simp)]

theorem modelAt_heapUpd_attrs_promises (r : RState) (a : Nat) (f : MState → Obj) (b : Nat) :
    (modelAt (heapUpd r a (fun m => { m with attributes := f m })) b).promises =
      (modelAt r b).promises := by
  by_cases hab : a = b
  · subst hab
    by_cases hlt : a < r.heap.length
    · rw [modelAt_heapUpd_self _ _ _ hlt]
    · rw [modelAt_heapUpd_oob _ _ _ _ hlt]
  · rw [modelAt_heapUpd_ne _ _ _ _ hab]

/-- `addModelRef` never touches any model's pending promises. -/
theorem addModelRef_promises (r : RState) (x b : Nat) :
    (modelAt (addModelRef r x).1 b).promises = (modelAt r b).promises := by
  unfold addModelRef
  dsimp only
  split
  · split
    · rfl
    · unfold mergeIntoCached
      dsimp only
      rw [modelAt_heapUpd_attrs_promises, modelAt_heapUpd_attrs_promises]
  · rfl

theorem modelAt_pushHandle (r : RState) (a h b : Nat) :
    ((modelAt (heapUpd r a (fun m => { m with promises := m.promises ++ [h] })) b).attributes
      = (modelAt r b).attributes) ∧
    ((modelAt (heapUpd r a (fun m => { m with promises := m.promises ++ [h] })) b).synced
      = (modelAt r b).synced) ∧
    ((modelAt (heapUpd r a (fun m => { m with promises := m.promises ++ [h] })) b).new
      = (modelAt r b).new) ∧
    ((modelAt (heapUpd r a (fun m => { m with promises := m.promises ++ [h] })) b).deleted
      = (modelAt r b).deleted) := by
  by_cases hab : a = b
  · subst hab
    by_cases hlt : a < r.heap.length
    · rw [modelAt_heapUpd_self _ _ _ hlt]
      exact ⟨rfl, rfl, rfl, rfl⟩
    · rw [modelAt_heapUpd_oob _ _ _ _ hlt]
      exact ⟨rfl, rfl, rfl, rfl⟩
  · rw [modelAt_heapUpd_ne _ _ _ _ hab]
    exact ⟨rfl, rfl, rfl, rfl⟩

/-- C9: when the awaited prior snapshot rejects, every operation (model
fetch/save/delete, collection fetch/save/delete) rejects with that same
reason, issues no transport request, performs no logging or error reporting,
and leaves every model's attributes and flags, the caches, and the
collection's membership, metadata and flags unchanged (only the operation's
own handle, pushed synchronously at construction, is added to the pending
list). -/
theorem prior_rejection_poisons (r : RState) (a h : Nat) (c : CState)
    (force exists_ : Bool) (attrs : Obj) (data : List Value)
    (reason : Value) (client : Except Value Value) :
    ((modelFetch r a h force (.error reason) client).2.1 = .rejected reason ∧
     (modelFetch r a h force (.error reason) client).2.2 = noEffects ∧
     (∀ b, (modelAt (modelFetch r a h force (.error reason) client).1 b).attributes
         = (modelAt r b).attributes ∧
       (modelAt (modelFetch r a h force (.error reason) client).1 b).synced
         = (modelAt r b).synced ∧
       (modelAt (modelFetch r a h force (.error reason) client).1 b).new
         = (modelAt r b).new ∧
       (modelAt (modelFetch r a h force (.error reason) client).1 b).deleted
         = (modelAt r b).deleted) ∧
     (modelFetch r a h force (.error reason) client).1.models = r.models ∧
     (modelFetch r a h force (.error reason) client).1.collections = r.collections) ∧
    ((modelSave r a h attrs exists_ (.error reason) client).2.1 = .rejected reason ∧
     (modelSave r a h attrs exists_ (.error reason) client).2.2 = noEffects ∧
     (∀ b, (modelAt (modelSave r a h attrs exists_ (.error reason) client).1 b).attributes
         = (modelAt r b).attributes ∧
       (modelAt (modelSave r a h attrs exists_ (.error reason) client).1 b).synced
         = (modelAt r b).synced ∧
       (modelAt (modelSave r a h attrs exists_ (.error reason) client).1 b).new
         = (modelAt r b).new ∧
       (modelAt (modelSave r a h attrs exists_ (.error reason) client).1 b).deleted
         = (modelAt r b).deleted) ∧
     (modelSave r a h attrs exists_ (.error reason) client).1.models = r.models ∧
     (modelSave r a h attrs exists_ (.error reason) client).1.collections = r.collections) ∧
    ((modelDelete r a h (.error reason) client).2.1 = .rejected reason ∧
     (modelDelete r a h (.error reason) client).2.2 = noEffects ∧
     (∀ b, (modelAt (modelDelete r a h (.error reason) client).1 b).attributes
         = (modelAt r b).attributes ∧
       (modelAt (modelDelete r a h (.error reason) client).1 b).synced
         = (modelAt r b).synced ∧
       (modelAt (modelDelete r a h (.error reason) client).1 b).new
         = (modelAt r b).new ∧
       (modelAt (modelDelete r a h (.error reason) client).1 b).deleted
         = (modelAt r b).deleted) ∧
     (modelDelete r a h (.error reason) client).1.models = r.models ∧
     (modelDelete r a h (.error reason) client).1.collections = r.collections) ∧
    ((collectionFetch r c h force (.error reason) client).1 = r ∧
     (collectionFetch r c h force (.error reason) client).2.2.1 = .rejected reason ∧
     (collectionFetch r c h force (.error reason) client).2.2.2 = noEffects ∧
     (collectionFetch r c h force (.error reason) client).2.1
       = { c with promises := c.promises ++ [h] }) ∧
    ((collectionSave r c h data (.error reason) client).1 = r ∧
     (collectionSave r c h data (.error reason) client).2.2.1 = .rejected reason ∧
     (collectionSave r c h data (.error reason) client).2.2.2 = noEffects ∧
     (collectionSave r c h data (.error reason) client).2.1
       = { c with promises := c.promises ++ [h] }) ∧
    ((collectionDelete r c h (.error reason) client).1 = r ∧
     (collectionDelete r c h (.error reason) client).2.2.1 = .rejected reason ∧
     (collectionDelete r c h (.error reason) client).2.2.2 = noEffects ∧
     (collectionDelete r c h (.error reason) client).2.1
       = { c with promises := c.promises ++ [h] }) :=
  ⟨⟨rfl, rfl, fun b => modelAt_pushHandle r a h b, rfl, rfl⟩,
   ⟨rfl, rfl, fun b => modelAt_pushHandle r a h b, rfl, rfl⟩,
   ⟨rfl, rfl, fun b => modelAt_pushHandle r a h b, rfl, rfl⟩,
   ⟨rfl, rfl, rfl, rfl⟩, ⟨rfl, rfl, rfl, rfl⟩, ⟨rfl, rfl, rfl, rfl⟩⟩

theorem addModelRef_heapLength (r : RState) (x : Nat) :
    (addModelRef r x).1.heap.length = r.heap.length := by
  unfold addModelRef
  dsimp only
  split
  · split
    · rfl
    · unfold mergeIntoCached
      dsimp only
      rw [heap_length_heapUpd, heap_length_heapUpd]
  · rfl

theorem modelFetch_promises (r : RState) (a h : Nat) (force : Bool)
    (prior : Except Value Unit) (client : Except Value Value)
    (hm : h ∉ (modelAt r a).promises) (ha : a < r.heap.length) :
    ((modelFetch r a h force prior client).2.2.request.isSome = true →
      (modelFetch r a h force prior client).2.1 ≠ .threw →
      (modelAt (modelFetch r a h force prior client).1 a).promises
        = (modelAt r a).promises) ∧
    ((modelFetch r a h force prior client).2.2.request = none →
      (modelAt (modelFetch r a h force prior client).1 a).promises
        = (modelAt r a).promises ++ [h]) := by
  unfold modelFetch
  dsimp only
  have hpush : (modelAt (heapUpd r a
      (fun m => { m with promises := m.promises ++ [h] })) a).promises
      = (modelAt r a).promises ++ [h] := by
    rw [modelAt_heapUpd_self _ _ _ ha]
  have hlen0 : (heapUpd r a
      (fun m => { m with promises := m.promises ++ [h] })).heap.length
      = r.heap.length := heap_length_heapUpd _ _ _
  cases prior with
  | error reason =>
    exact ⟨fun hreq _ => absurd hreq (by simp [noEffects]), fun _ => hpush⟩
  | ok u =>
    dsimp only
    split
    · exact ⟨fun hreq _ => absurd hreq (by simp [noEffects]), fun _ => hpush⟩
    · have hp1 : (modelAt (heapUpd (heapUpd r a
          (fun m => { m with promises := m.promises ++ [h] })) a
          (fun mm => { mm with synced := false })) a).promises
          = (modelAt r a).promises ++ [h] := by
        refine Eq.trans ?_ hpush
        exact modelAt_heapUpd_preserves (fun m => m.promises)
          (fun mm => { mm with synced := false }) (fun _ => rfl) _ a a
      have hlen1 : a < (heapUpd (heapUpd r a
          (fun m => { m with promises := m.promises ++ [h] })) a
          (fun mm => { mm with synced := false })).heap.length := by
        rw [heap_length_heapUpd, hlen0]
        exact ha
      cases client with
      | ok d =>
        dsimp only
        cases hset : modelSetValue (heapUpd (heapUpd r a
            (fun m => { m with promises := m.promises ++ [h] })) a
            (fun mm => { mm with synced := false })).idKey
            (modelAt (heapUpd (heapUpd r a
              (fun m => { m with promises := m.promises ++ [h] })) a
              (fun mm => { mm with synced := false })) a).attributes d with
        | none =>
          exact ⟨fun _ hthrew => absurd rfl hthrew, fun hnone => by simp at hnone⟩
        | some newAttrs =>
          refine ⟨fun _ _ => ?_, fun hnone => by simp at hnone⟩
          rw [modelAt_heapUpd_self _ _ _ hlen1]
          dsimp only
          rw [hp1]
          exact spliceOut_append _ h hm
      | error e =>
        dsimp only
        refine ⟨fun _ _ => ?_, fun hnone => by simp at hnone⟩
        rw [modelAt_heapUpd_self _ _ _ hlen1]
        dsimp only
        rw [hp1]
        exact spliceOut_append _ h hm


theorem modelSave_promises (r : RState) (a h : Nat) (attrs : Obj) (exists_ : Bool)
    (prior : Except Value Unit) (client : Except Value Value)
    (hm : h ∉ (modelAt r a).promises) (ha : a < r.heap.length) :
    ((modelSave r a h attrs exists_ prior client).2.2.request.isSome = true →
      (modelSave r a h attrs exists_ prior client).2.1 ≠ .threw →
      (modelAt (modelSave r a h attrs exists_ prior client).1 a).promises
        = (modelAt r a).promises) ∧
    ((modelSave r a h attrs exists_ prior client).2.2.request = none →
      (modelAt (modelSave r a h attrs exists_ prior client).1 a).promises
        = (modelAt r a).promises ++ [h]) := by
  unfold modelSave
  dsimp only
  have hpush : (modelAt (heapUpd r a
      (fun m => { m with promises := m.promises ++ [h] })) a).promises
      = (modelAt r a).promises ++ [h] := by
    rw [modelAt_heapUpd_self _ _ _ ha]
  have hlen0 : (heapUpd r a
      (fun m => { m with promises := m.promises ++ [h] })).heap.length
      = r.heap.length := heap_length_heapUpd _ _ _
  have hp1 : (modelAt (heapUpd (heapUpd r a
      (fun m => { m with promises := m.promises ++ [h] })) a
      (fun mm => { mm with synced := false })) a).promises
      = (modelAt r a).promises ++ [h] := by
    refine Eq.trans ?_ hpush
    exact modelAt_heapUpd_preserves (fun m => m.promises)
      (fun mm => { mm with synced := false }) (fun _ => rfl) _ a a
  have hlen1 : a < (heapUpd (heapUpd r a
      (fun m => { m with promises := m.promises ++ [h] })) a
      (fun mm => { mm with synced := false })).heap.length := by
    rw [heap_length_heapUpd, hlen0]
    exact ha
  cases prior with
  | error reason =>
    exact ⟨fun hreq _ => absurd hreq (by simp [noEffects]), fun _ => hpush⟩
  | ok u =>
    dsimp only
    cases hsync : (modelAt (heapUpd r a
        (fun m => { m with promises := m.promises ++ [h] })) a).synced with
    | false =>
      simp only [Bool.false_eq_true, if_false]
      cases hpe : List.isEmpty (objAssign (modelAt (heapUpd r a
          (fun m => { m with promises := m.promises ++ [h] })) a).attributes attrs) with
      | true =>
        simp only [if_true]
        exact ⟨fun hreq _ => absurd hreq (by simp [noEffects]), fun _ => hpush⟩
      | false =>
        simp only [Bool.false_eq_true, if_false]
        cases client with
        | ok d =>
          dsimp only
          cases hset : modelSetValue (heapUpd (heapUpd r a
              (fun m => { m with promises := m.promises ++ [h] })) a
              (fun mm => { mm with synced := false })).idKey
              (modelAt (heapUpd (heapUpd r a
                (fun m => { m with promises := m.promises ++ [h] })) a
                (fun mm => { mm with synced := false })) a).attributes d with
          | none =>
            exact ⟨fun _ hthrew => absurd rfl hthrew, fun hnone => by simp at hnone⟩
          | some newAttrs =>
            refine ⟨fun _ _ => ?_, fun hnone => by simp at hnone⟩
            dsimp only
            split
            · rw [modelAt_heapUpd_self]
              · dsimp only
                rw [addModelRef_promises, modelAt_heapUpd_attrs_promises, hp1]
                exact spliceOut_append _ h hm
              · rw [addModelRef_heapLength, heap_length_heapUpd, heap_length_heapUpd,
                  hlen0]
                exact ha
            · rw [modelAt_heapUpd_self]
              · dsimp only
                rw [modelAt_heapUpd_attrs_promises, hp1]
                exact spliceOut_append _ h hm
              · rw [heap_length_heapUpd, heap_length_heapUpd, hlen0]
                exact ha
        | error e =>
          dsimp only
          refine ⟨fun _ _ => ?_, fun hnone => by simp at hnone⟩
          rw [modelAt_heapUpd_self _ _ _ hlen1]
          dsimp only
          rw [hp1]
          exact spliceOut_append _ h hm
    | true =>
      simp only [if_true]
      cases hpe : List.isEmpty (dirtyDiff (modelAt (heapUpd r a
          (fun m => { m with promises := m.promises ++ [h] })) a).attributes attrs) with
      | true =>
        simp only [if_true]
        exact ⟨fun hreq _ => absurd hreq (by simp [noEffects]), fun _ => hpush⟩
      | false =>
        simp only [Bool.false_eq_true, if_false]
        cases client with
        | ok d =>
          dsimp only
          cases hset : modelSetValue (heapUpd (heapUpd r a
              (fun m => { m with promises := m.promises ++ [h] })) a
              (fun mm => { mm with synced := false })).idKey
              (modelAt (heapUpd (heapUpd r a
                (fun m => { m with promises := m.promises ++ [h] })) a
                (fun mm => { mm with synced := false })) a).attributes d with
          | none =>
            exact ⟨fun _ hthrew => absurd rfl hthrew, fun hnone => by simp at hnone⟩
          | some newAttrs =>
            refine ⟨fun _ _ => ?_, fun hnone => by simp at hnone⟩
            dsimp only
            split
            · rw [modelAt_heapUpd_self]
              · dsimp only
                rw [addModelRef_promises, modelAt_heapUpd_attrs_promises, hp1]
                exact spliceOut_append _ h hm
              · rw [addModelRef_heapLength, heap_length_heapUpd, heap_length_heapUpd,
                  hlen0]
                exact ha
            · rw [modelAt_heapUpd_self]
              · dsimp only
                rw [modelAt_heapUpd_attrs_promises, hp1]
                exact spliceOut_append _ h hm
              · rw [heap_length_heapUpd, heap_length_heapUpd, hlen0]
                exact ha
        | error e =>
          dsimp only
          refine ⟨fun _ _ => ?_, fun hnone => by simp at hnone⟩
          rw [modelAt_heapUpd_self _ _ _ hlen1]
          dsimp only
          rw [hp1]
          exact spliceOut_append _ h hm

theorem modelDelete_promises (r : RState) (a h : Nat)
    (prior : Except Value Unit) (client : Except Value Value)
    (hm : h ∉ (modelAt r a).promises) (ha : a < r.heap.length) :
    ((modelDelete r a h prior client).2.2.request.isSome = true →
      (modelDelete r a h prior client).2.1 ≠ .threw →
      (modelAt (modelDelete r a h prior client).1 a).promises
        = (modelAt r a).promises) ∧
    ((modelDelete r a h prior client).2.2.request = none →
      (modelAt (modelDelete r a h prior client).1 a).promises
        = (modelAt r a).promises ++ [h]) := by
  unfold modelDelete
  dsimp only
  have hpush : (modelAt (heapUpd r a
      (fun m => { m with promises := m.promises ++ [h] })) a).promises
      = (modelAt r a).promises ++ [h] := by
    rw [modelAt_heapUpd_self _ _ _ ha]
  have hlen0 : (heapUpd r a
      (fun m => { m with promises := m.promises ++ [h] })).heap.length
      = r.heap.length := heap_length_heapUpd _ _ _
  cases prior with
  | error reason =>
    exact ⟨fun hreq _ => absurd hreq (by simp [noEffects]), fun _ => hpush⟩
  | ok u =>
    dsimp only
    cases hid : modelIdTruthy (heapUpd r a
        (fun m => { m with promises := m.promises ++ [h] })).idKey
        (modelAt (heapUpd r a
          (fun m => { m with promises := m.promises ++ [h] })) a) with
    | false =>
      simp only [Bool.not_false, if_true]
      exact ⟨fun hreq _ => absurd hreq (by simp [noEffects]), fun _ => hpush⟩
    | true =>
      simp only [Bool.not_true, Bool.false_eq_true, if_false]
      cases client with
      | ok d =>
        dsimp only
        refine ⟨fun _ _ => ?_, fun hnone => by simp at hnone⟩
        rw [modelAt_heapUpd_self]
        · dsimp only
          have hrm : (modelAt (resourceRemoveModel (heapUpd r a
              (fun m => { m with promises := m.promises ++ [h] })) a) a).promises
              = (modelAt r a).promises ++ [h] := hpush
          rw [hrm]
          exact spliceOut_append _ h hm
        · show a < (resourceRemoveModel _ a).heap.length
          unfold resourceRemoveModel
          dsimp only
          rw [hlen0]
          exact ha
      | error e =>
        dsimp only
        refine ⟨fun _ _ => ?_, fun hnone => by simp at hnone⟩
        rw [modelAt_heapUpd_self _ _ _ (by rw [hlen0]; exact ha)]
        dsimp only
        rw [hpush]
        exact spliceOut_append _ h hm

theorem collectionSetSynced_snd_promises (r : RState) (c : CState) (v : Bool) :
    (collectionSetSynced r c v).2.promises = c.promises := by
  cases v <;> rfl

theorem collectionSetNew_snd_promises (r : RState) (c : CState) (v : Bool) :
    (collectionSetNew r c v).2.promises = c.promises := by
  cases v <;> rfl

theorem collectionSetAux_promises :
    ∀ (l : List SetInput) (r : RState) (c : CState),
      (collectionSetAux r c l).c.promises = c.promises
  | [], _, _ => rfl
  | inp :: rest, r, c => by
    unfold collectionSetAux
    dsimp only
    cases hadd : resourceAddModel r inp (setFieldParams c) with
    | none => rfl
    | some pr =>
      obtain ⟨r1, addr⟩ := pr
      dsimp only
      cases hget : cacheGet c.model_map (dedupKeyOf r1 addr) with
      | some x => exact collectionSetAux_promises rest r1 c
      | none => exact collectionSetAux_promises rest r1 _

theorem collectionFetch_promises (r : RState) (c : CState) (h : Nat) (force : Bool)
    (prior : Except Value Unit) (client : Except Value Value)
    (hm : h ∉ c.promises) :
    ((collectionFetch r c h force prior client).2.2.2.request.isSome = true →
      (collectionFetch r c h force prior client).2.2.1 ≠ .threw →
      (collectionFetch r c h force prior client).2.1.promises = c.promises) ∧
    ((collectionFetch r c h force prior client).2.2.2.request = none →
      (collectionFetch r c h force prior client).2.1.promises = c.promises ++ [h]) := by
  unfold collectionFetch
  dsimp only
  cases prior with
  | error reason =>
    exact ⟨fun hreq _ => absurd hreq (by simp [noEffects]), fun _ => rfl⟩
  | ok u =>
    dsimp only
    cases hsc : !force && collectionSynced r { c with promises := c.promises ++ [h] } with
    | true =>
      exact ⟨fun hreq _ => absurd hreq (by simp [noEffects]), fun _ => rfl⟩
    | false =>
      rw [if_neg (by decide : ¬ (false = true))]
      cases client with
      | ok d =>
        dsimp only
        cases d with
        | varr vs =>
          dsimp only
          split
          · exact ⟨fun _ hth => absurd rfl hth, fun hnone => by simp at hnone⟩
          · refine ⟨fun _ _ => ?_, fun hnone => by simp at hnone⟩
            dsimp only
            rw [collectionSetNew_snd_promises, collectionSetSynced_snd_promises,
              collectionSetAux_promises]
            exact spliceOut_append c.promises h hm
        | vobj o =>
          dsimp only
          cases henv : envelopeResults (.vobj o) with
          | some rv =>
            dsimp only
            split
            · exact ⟨fun _ hth => absurd rfl hth, fun hnone => by simp at hnone⟩
            · refine ⟨fun _ _ => ?_, fun hnone => by simp at hnone⟩
              dsimp only
              rw [collectionSetNew_snd_promises, collectionSetSynced_snd_promises,
                collectionSetAux_promises]
              exact spliceOut_append c.promises h hm
          | none =>
            exact ⟨fun _ _ => spliceOut_append c.promises h hm,
              fun hnone => by simp at hnone⟩
        | vstr s =>
          exact ⟨fun _ _ => spliceOut_append c.promises h hm,
            fun hnone => by simp [envelopeResults] at hnone⟩
        | vnum n =>
          exact ⟨fun _ _ => spliceOut_append c.promises h hm,
            fun hnone => by simp [envelopeResults] at hnone⟩
        | vbool b =>
          exact ⟨fun _ _ => spliceOut_append c.promises h hm,
            fun hnone => by simp [envelopeResults] at hnone⟩
        | vnull =>
          exact ⟨fun _ _ => spliceOut_append c.promises h hm,
            fun hnone => by simp [envelopeResults] at hnone⟩
        | vundef =>
          exact ⟨fun _ _ => spliceOut_append c.promises h hm,
            fun hnone => by simp [envelopeResults] at hnone⟩
      | error e =>
        exact ⟨fun _ _ => spliceOut_append c.promises h hm,
          fun hnone => by simp at hnone⟩

theorem collectionSave_promises (r : RState) (c : CState) (h : Nat) (data : List Value)
    (prior : Except Value Unit) (client : Except Value Value)
    (hm : h ∉ c.promises) :
    ((collectionSave r c h data prior client).2.2.2.request.isSome = true →
      (collectionSave r c h data prior client).2.2.1 ≠ .threw →
      (collectionSave r c h data prior client).2.1.promises = c.promises) ∧
    (∀ reason, prior = .error reason →
      (collectionSave r c h data prior client).2.1.promises = c.promises ++ [h]) ∧
    (prior = .ok () →
      (collectionSave r c h data prior client).2.2.2.request = none →
      (collectionSave r c h data prior client).2.1.promises = c.promises) := by
  unfold collectionSave
  dsimp only
  cases prior with
  | error reason =>
    exact ⟨fun hreq _ => absurd hreq (by simp [noEffects]), fun _ _ => rfl,
      fun hok => by simp at hok⟩
  | ok u =>
    dsimp only
    cases href : data.isEmpty && !(collectionNew r { c with promises := c.promises ++ [h] }) with
    | true =>
      exact ⟨fun hreq _ => absurd hreq (by simp [noEffects]),
        fun reason hco => by simp at hco,
        fun _ _ => spliceOut_append c.promises h hm⟩
    | false =>
      rw [if_neg (by decide : ¬ (false = true))]
      cases client with
      | ok d =>
        dsimp only
        cases d with
        | varr vs =>
          dsimp only
          split
          · exact ⟨fun _ hth => absurd rfl hth, fun reason hco => by simp at hco,
              fun _ hnone => by simp at hnone⟩
          · refine ⟨fun _ _ => ?_, fun reason hco => by simp at hco,
              fun _ hnone => by simp at hnone⟩
            dsimp only
            rw [collectionSetNew_snd_promises, collectionSetSynced_snd_promises,
              collectionSetAux_promises]
            exact spliceOut_append c.promises h hm
        | vobj o =>
          exact ⟨fun _ _ => spliceOut_append c.promises h hm,
            fun reason hco => by simp at hco, fun _ hnone => by simp at hnone⟩
        | vstr s =>
          exact ⟨fun _ _ => spliceOut_append c.promises h hm,
            fun reason hco => by simp at hco, fun _ hnone => by simp at hnone⟩
        | vnum n =>
          exact ⟨fun _ _ => spliceOut_append c.promises h hm,
            fun reason hco => by simp at hco, fun _ hnone => by simp at hnone⟩
        | vbool b =>
          exact ⟨fun _ _ => spliceOut_append c.promises h hm,
            fun reason hco => by simp at hco, fun _ hnone => by simp at hnone⟩
        | vnull =>
          exact ⟨fun _ _ => spliceOut_append c.promises h hm,
            fun reason hco => by simp at hco, fun _ hnone => by simp at hnone⟩
        | vundef =>
          exact ⟨fun _ _ => spliceOut_append c.promises h hm,
            fun reason hco => by simp at hco, fun _ hnone => by simp at hnone⟩
      | error e =>
        exact ⟨fun _ _ => spliceOut_append c.promises h hm,
          fun reason hco => by simp at hco, fun _ hnone => by simp at hnone⟩

theorem collectionDelete_promises (r : RState) (c : CState) (h : Nat)
    (prior : Except Value Unit) (client : Except Value Value)
    (hm : h ∉ c.promises) :
    ((collectionDelete r c h prior client).2.2.2.request.isSome = true →
      (collectionDelete r c h prior client).2.2.1 ≠ .threw →
      (collectionDelete r c h prior client).2.1.promises = c.promises) ∧
    ((collectionDelete r c h prior client).2.2.2.request = none →
      (collectionDelete r c h prior client).2.1.promises = c.promises ++ [h]) := by
  unfold collectionDelete
  dsimp only
  cases prior with
  | error reason =>
    exact ⟨fun hreq _ => absurd hreq (by simp [noEffects]), fun _ => rfl⟩
  | ok u =>
    dsimp only
    cases hgp : c.getParams.isEmpty with
    | true =>
      exact ⟨fun hreq _ => absurd hreq (by simp [noEffects]), fun _ => rfl⟩
    | false =>
      rw [if_neg (by decide : ¬ (false = true))]
      cases client with
      | ok d =>
        exact ⟨fun _ _ => spliceOut_append c.promises h hm,
          fun hnone => by simp at hnone⟩
      | error e =>
        exact ⟨fun _ _ => spliceOut_append c.promises h hm,
          fun hnone => by simp at hnone⟩

/-- A one-model registry whose model is synced and has no pending handles:
the setting in which a forceless fetch short-circuits. -/
def c3r : RState :=
  ⟨"id", [⟨[("id", .vstr "1")], [], true, false, false, []⟩], [("k", 0)], []⟩

/-- A collection with one GET param, no members and no pending handles. -/
def c3c : CState :=
  ⟨[("k2", .vnum 1)], [], [], none, true, false, []⟩

/-- C3: counterexample.  A forceless `Model.fetch` of a synced model settles
(resolves with the cached attributes) on the short-circuit branch that
performs no network call, yet its handle is still in the model's `promises`
list afterwards — the list retains a settled handle, so the cleanup is not
performed on every settled path. -/
theorem fetch_short_circuit_retains_settled_handle :
    (modelFetch c3r 0 5 false (.ok ()) (.ok .vnull)).2.1
      = .resolved (.vobj [("id", .vstr "1")]) ∧
    (modelAt (modelFetch c3r 0 5 false (.ok ()) (.ok .vnull)).1 0).promises = [5] ∧
    (modelFetch c3r 0 5 false (.ok ()) (.ok .vnull)).2.2.request = none :=
  ⟨rfl, rfl, rfl⟩

/-- C3 (amended): a started operation pushes its handle onto the object's
`promises` list, and the handle is spliced out exactly on the
transport-callback paths: for every model or collection operation, whenever
the operation issued a network request and settled without throwing, the
`promises` list is restored to its pre-operation contents; `Collection.save`
additionally removes its handle on its no-request refusal branch.  On the
remaining settled paths — the no-request short-circuits and the path where
the awaited prior snapshot rejects — the handle stays in the list
(`promises` becomes the old list with the handle appended). -/
theorem promise_handle_cleanup_per_path (r : RState) (c : CState)
    (a h : Nat) (force : Bool) (attrs : Obj) (exists_ : Bool) (data : List Value)
    (prior : Except Value Unit) (client : Except Value Value)
    (hma : h ∉ (modelAt r a).promises) (ha : a < r.heap.length)
    (hmc : h ∉ c.promises) :
    (((modelFetch r a h force prior client).2.2.request.isSome = true →
        (modelFetch r a h force prior client).2.1 ≠ .threw →
        (modelAt (modelFetch r a h force prior client).1 a).promises
          = (modelAt r a).promises) ∧
      ((modelFetch r a h force prior client).2.2.request = none →
        (modelAt (modelFetch r a h force prior client).1 a).promises
          = (modelAt r a).promises ++ [h])) ∧
    (((modelSave r a h attrs exists_ prior client).2.2.request.isSome = true →
        (modelSave r a h attrs exists_ prior client).2.1 ≠ .threw →
        (modelAt (modelSave r a h attrs exists_ prior client).1 a).promises
          = (modelAt r a).promises) ∧
      ((modelSave r a h attrs exists_ prior client).2.2.request = none →
        (modelAt (modelSave r a h attrs exists_ prior client).1 a).promises
          = (modelAt r a).promises ++ [h])) ∧
    (((modelDelete r a h prior client).2.2.request.isSome = true →
        (modelDelete r a h prior client).2.1 ≠ .threw →
        (modelAt (modelDelete r a h prior client).1 a).promises
          = (modelAt r a).promises) ∧
      ((modelDelete r a h prior client).2.2.request = none →
        (modelAt (modelDelete r a h prior client).1 a).promises
          = (modelAt r a).promises ++ [h])) ∧
    (((collectionFetch r c h force prior client).2.2.2.request.isSome = true →
        (collectionFetch r c h force prior client).2.2.1 ≠ .threw →
        (collectionFetch r c h force prior client).2.1.promises = c.promises) ∧
      ((collectionFetch r c h force prior client).2.2.2.request = none →
        (collectionFetch r c h force prior client).2.1.promises
          = c.promises ++ [h])) ∧
    (((collectionSave r c h data prior client).2.2.2.request.isSome = true →
        (collectionSave r c h data prior client).2.2.1 ≠ .threw →
        (collectionSave r c h data prior client).2.1.promises = c.promises) ∧
      (∀ reason, prior = .error reason →
        (collectionSave r c h data prior client).2.1.promises
          = c.promises ++ [h]) ∧
      (prior = .ok () →
        (collectionSave r c h data prior client).2.2.2.request = none →
        (collectionSave r c h data prior client).2.1.promises = c.promises)) ∧
    (((collectionDelete r c h prior client).2.2.2.request.isSome = true →
        (collectionDelete r c h prior client).2.2.1 ≠ .threw →
        (collectionDelete r c h prior client).2.1.promises = c.promises) ∧
      ((collectionDelete r c h prior client).2.2.2.request = none →
        (collectionDelete r c h prior client).2.1.promises
          = c.promises ++ [h])) :=
  ⟨modelFetch_promises r a h force prior client hma ha,
   modelSave_promises r a h attrs exists_ prior client hma ha,
   modelDelete_promises r a h prior client hma ha,
   collectionFetch_promises r c h force prior client hmc,
   collectionSave_promises r c h data prior client hmc,
   collectionDelete_promises r c h prior client hmc⟩

/-- C3 witness: at the concrete one-model registry, the handle 5 is absent
beforehand, and a forced fetch that succeeds restores the model's `promises`
list to its original (empty) contents. -/
theorem promise_handle_cleanup_per_path_witness :
    (5 ∉ (modelAt c3r 0).promises ∧ 0 < c3r.heap.length ∧ 5 ∉ c3c.promises) ∧
    (modelAt (modelFetch c3r 0 5 true (.ok ()) (.ok (.vobj [("id", .vstr "1")]))).1 0).promises
      = (modelAt c3r 0).promises :=
  ⟨⟨by decide, by decide, by decide⟩,
    (promise_handle_cleanup_per_path c3r c3c 0 5 true [] false []
      (.ok ()) (.ok (.vobj [("id", .vstr "1")]))
      (by decide) (by decide) (by decide)).1.1 rfl (fun hco => nomatch hco)⟩

theorem objSet_of_not_mem (o : Obj) (k : String) (v : Value)
    (h : k ∉ o.map Prod.fst) : objSet o k v = o ++ [(k, v)] := by
  induction o with
  | nil => rfl
  | cons p rest ih =>
    rw [List.map_cons] at h
    have hk : ¬ p.1 = k := fun he => h (he ▸ List.mem_cons_self p.1 _)
    rw [objSet, if_neg hk, List.cons_append, ih (fun hmem => h (List.mem_cons_of_mem _ hmem))]

theorem foldl_diff_eq_filter (cur : Obj) :
    ∀ (attrs acc : Obj),
      (∀ p ∈ attrs, p.1 ∉ acc.map Prod.fst) →
      (attrs.map Prod.fst).Nodup →
      attrs.foldl (fun acc p =>
        if veq p.2 ((olookup cur p.1).getD .vundef) then acc
        else objSet acc p.1 p.2) acc
      = acc ++ attrs.filter (fun p => !veq p.2 ((olookup cur p.1).getD .vundef))
  | [], acc, _, _ => by simp
  | p :: rest, acc, hdis, hnd => by
    rw [List.foldl_cons, List.filter_cons]
    have hndr : (rest.map Prod.fst).Nodup := by
      rw [List.map_cons] at hnd
      exact (List.nodup_cons.mp hnd).2
    have hp1r : p.1 ∉ rest.map Prod.fst := by
      rw [List.map_cons] at hnd
      exact (List.nodup_cons.mp hnd).1
    cases hv : veq p.2 ((olookup cur p.1).getD .vundef) with
    | true =>
      rw [if_pos rfl, Bool.not_true, if_neg (by decide : ¬ (false = true))]
      exact foldl_diff_eq_filter cur rest acc
        (fun q hq => hdis q (List.mem_cons_of_mem _ hq)) hndr
    | false =>
      rw [if_neg (by decide : ¬ (false = true)), Bool.not_false, if_pos rfl]
      rw [objSet_of_not_mem acc p.1 p.2 (hdis p (List.mem_cons_self _ _))]
      rw [foldl_diff_eq_filter cur rest (acc ++ [(p.1, p.2)])
        (fun q hq => by
          rw [List.map_append]
          intro hmem
          rcases List.mem_append.mp hmem with h1 | h2
          · exact hdis q (List.mem_cons_of_mem _ hq) h1
          · have : q.1 = p.1 := by simpa using h2
            exact hp1r (this ▸ List.mem_map_of_mem Prod.fst hq)) hndr]
      rw [List.append_assoc]
      rfl

/-- `dirtyDiff` keeps exactly the fields of `attrs` whose value differs by
deep equality (`veq`) from the current attribute (a missing current attribute
reads as `undefined`), in order. -/
theorem dirtyDiff_eq_filter (cur attrs : Obj) (hnd : (attrs.map Prod.fst).Nodup) :
    dirtyDiff cur attrs
      = attrs.filter (fun p => !veq p.2 ((olookup cur p.1).getD .vundef)) := by
  have hstep := foldl_diff_eq_filter cur attrs [] (by simp) hnd
  rw [dirtyDiff, hstep, List.nil_append]

/-- C6: `Model.save` dirty-diff policy.  The dirty diff keeps exactly the
fields of `attrs` that differ by deep equality from the current attribute;
on a synced model with an empty diff the save resolves immediately with the
current attribute snapshot, issues no request and changes no model state; on
a synced model with a non-empty diff the outgoing payload is the dirty diff;
on an unsynced model the outgoing payload is the full merge of the current
attributes with `attrs`. -/
theorem save_dirty_diff_policy (r : RState) (a h : Nat) (attrs : Obj)
    (exists_ : Bool) (client : Except Value Value)
    (hnd : (attrs.map Prod.fst).Nodup) :
    (dirtyDiff (modelAt r a).attributes attrs
      = attrs.filter (fun p =>
          !veq p.2 ((olookup (modelAt r a).attributes p.1).getD .vundef))) ∧
    ((modelAt r a).synced = true →
      (dirtyDiff (modelAt r a).attributes attrs).isEmpty = true →
      (modelSave r a h attrs exists_ (.ok ()) client).2.1
        = .resolved (.vobj (modelAt r a).attributes) ∧
      (modelSave r a h attrs exists_ (.ok ()) client).2.2.request = none ∧
      (∀ b, (modelAt (modelSave r a h attrs exists_ (.ok ()) client).1 b).attributes
          = (modelAt r b).attributes ∧
        (modelAt (modelSave r a h attrs exists_ (.ok ()) client).1 b).synced
          = (modelAt r b).synced ∧
        (modelAt (modelSave r a h attrs exists_ (.ok ()) client).1 b).new
          = (modelAt r b).new ∧
        (modelAt (modelSave r a h attrs exists_ (.ok ()) client).1 b).deleted
          = (modelAt r b).deleted) ∧
      (modelSave r a h attrs exists_ (.ok ()) client).1.models = r.models) ∧
    ((modelAt r a).synced = true →
      (dirtyDiff (modelAt r a).attributes attrs).isEmpty = false →
      ((modelSave r a h attrs exists_ (.ok ()) client).2.2.request).map
          (fun q => q.data)
        = some (some (.vobj (dirtyDiff (modelAt r a).attributes attrs)))) ∧
    ((modelAt r a).synced = false →
      (objAssign (modelAt r a).attributes attrs).isEmpty = false →
      ((modelSave r a h attrs exists_ (.ok ()) client).2.2.request).map
          (fun q => q.data)
        = some (some (.vobj (objAssign (modelAt r a).attributes attrs)))) := by
  refine ⟨dirtyDiff_eq_filter _ _ hnd, ?_, ?_, ?_⟩
  · intro hsync hempty
    unfold modelSave
    dsimp only
    cases hsync' : (modelAt (heapUpd r a
        (fun m => { m with promises := m.promises ++ [h] })) a).synced with
    | false =>
      rw [(modelAt_pushHandle r a h a).2.1, hsync] at hsync'
      exact absurd hsync' (by decide)
    | true =>
      rw [if_pos rfl]
      cases hpe : List.isEmpty (dirtyDiff (modelAt (heapUpd r a
          (fun m => { m with promises := m.promises ++ [h] })) a).attributes attrs) with
      | false =>
        rw [(modelAt_pushHandle r a h a).1, hempty] at hpe
        exact absurd hpe (by decide)
      | true =>
        rw [if_pos rfl]
        refine ⟨?_, rfl, fun b => modelAt_pushHandle r a h b, rfl⟩
        rw [(modelAt_pushHandle r a h a).1]
  · intro hsync hne
    unfold modelSave
    dsimp only
    cases hsync' : (modelAt (heapUpd r a
        (fun m => { m with promises := m.promises ++ [h] })) a).synced with
    | false =>
      rw [(modelAt_pushHandle r a h a).2.1, hsync] at hsync'
      exact absurd hsync' (by decide)
    | true =>
      rw [if_pos rfl]
      cases hpe : List.isEmpty (dirtyDiff (modelAt (heapUpd r a
          (fun m => { m with promises := m.promises ++ [h] })) a).attributes attrs) with
      | true =>
        rw [(modelAt_pushHandle r a h a).1, hne] at hpe
        exact absurd hpe (by decide)
      | false =>
        rw [if_neg (by decide : ¬ (false = true))]
        cases client with
        | ok d =>
          dsimp only
          cases hset : modelSetValue (heapUpd (heapUpd r a
              (fun m => { m with promises := m.promises ++ [h] })) a
              (fun mm => { mm with synced := false })).idKey
              (modelAt (heapUpd (heapUpd r a
                (fun m => { m with promises := m.promises ++ [h] })) a
                (fun mm => { mm with synced := false })) a).attributes d with
          | none =>
            cases hmn : !(modelAt (heapUpd r a
                (fun m => { m with promises := m.promises ++ [h] })) a).new || exists_ with
            | true =>
              rw [if_pos rfl, (modelAt_pushHandle r a h a).1]
              rfl
            | false =>
              rw [if_neg (by decide : ¬ (false = true)), (modelAt_pushHandle r a h a).1]
              rfl
          | some newAttrs =>
            cases hmn : !(modelAt (heapUpd r a
                (fun m => { m with promises := m.promises ++ [h] })) a).new || exists_ with
            | true =>
              rw [if_pos rfl, (modelAt_pushHandle r a h a).1]
              rfl
            | false =>
              rw [if_neg (by decide : ¬ (false = true)), (modelAt_pushHandle r a h a).1]
              rfl
        | error e =>
          dsimp only
          cases hmn : !(modelAt (heapUpd r a
              (fun m => { m with promises := m.promises ++ [h] })) a).new || exists_ with
          | true =>
            rw [if_pos rfl, (modelAt_pushHandle r a h a).1]
            rfl
          | false =>
            rw [if_neg (by decide : ¬ (false = true)), (modelAt_pushHandle r a h a).1]
            rfl
  · intro hsync hne
    unfold modelSave
    dsimp only
    cases hsync' : (modelAt (heapUpd r a
        (fun m => { m with promises := m.promises ++ [h] })) a).synced with
    | true =>
      rw [(modelAt_pushHandle r a h a).2.1, hsync] at hsync'
      exact absurd hsync' (by decide)
    | false =>
      rw [if_neg (by decide : ¬ (false = true))]
      cases hpe : List.isEmpty (objAssign (modelAt (heapUpd r a
          (fun m => { m with promises := m.promises ++ [h] })) a).attributes attrs) with
      | true =>
        rw [(modelAt_pushHandle r a h a).1, hne] at hpe
        exact absurd hpe (by decide)
      | false =>
        rw [if_neg (by decide : ¬ (false = true))]
        cases client with
        | ok d =>
          dsimp only
          cases hset : modelSetValue (heapUpd (heapUpd r a
              (fun m => { m with promises := m.promises ++ [h] })) a
              (fun mm => { mm with synced := false })).idKey
              (modelAt (heapUpd (heapUpd r a
                (fun m => { m with promises := m.promises ++ [h] })) a
                (fun mm => { mm with synced := false })) a).attributes d with
          | none =>
            cases hmn : !(modelAt (heapUpd r a
                (fun m => { m with promises := m.promises ++ [h] })) a).new || exists_ with
            | true =>
              rw [if_pos rfl, (modelAt_pushHandle r a h a).1]
              rfl
            | false =>
              rw [if_neg (by decide : ¬ (false = true)), (modelAt_pushHandle r a h a).1]
              rfl
          | some newAttrs =>
            cases hmn : !(modelAt (heapUpd r a
                (fun m => { m with promises := m.promises ++ [h] })) a).new || exists_ with
            | true =>
              rw [if_pos rfl, (modelAt_pushHandle r a h a).1]
              rfl
            | false =>
              rw [if_neg (by decide : ¬ (false = true)), (modelAt_pushHandle r a h a).1]
              rfl
        | error e =>
          dsimp only
          cases hmn : !(modelAt (heapUpd r a
              (fun m => { m with promises := m.promises ++ [h] })) a).new || exists_ with
          | true =>
            rw [if_pos rfl, (modelAt_pushHandle r a h a).1]
            rfl
          | false =>
            rw [if_neg (by decide : ¬ (false = true)), (modelAt_pushHandle r a h a).1]
            rfl

/-- C6 witness: on the concrete synced model, the dirty diff of
`{id: "1", x: 2}` against `{id: "1"}` keeps exactly the differing field. -/
theorem save_dirty_diff_policy_witness :
    (([("id", Value.vstr "1"), ("x", Value.vnum 2)] : Obj).map Prod.fst).Nodup ∧
    dirtyDiff (modelAt c3r 0).attributes [("id", Value.vstr "1"), ("x", Value.vnum 2)]
      = ([("id", Value.vstr "1"), ("x", Value.vnum 2)] : Obj).filter (fun p =>
          !veq p.2 ((olookup (modelAt c3r 0).attributes p.1).getD .vundef)) :=
  ⟨by decide,
    (save_dirty_diff_policy c3r 0 5 [("id", Value.vstr "1"), ("x", Value.vnum 2)]
      false (.ok .vnull) (by decide)).1⟩

/-- C7: each policy refusal rejects with its descriptive reason, issues no
transport request, logs and reports nothing, and leaves the caches and the
sync state unchanged: `Model.delete` on a model whose id is not truthy,
`Collection.delete` on a collection with no GET params, and
`Collection.save` with no new data on a non-new collection (the last also
removes its own handle, so the collection is returned exactly as it was). -/
theorem policy_refusals_reject_without_side_effects (r : RState) (c : CState)
    (a h : Nat) (data : List Value) (client : Except Value Value)
    (hm : h ∉ c.promises) :
    (modelIdTruthy r.idKey (modelAt r a) = false →
      (modelDelete r a h (.ok ()) client).2.1
        = .rejected (.vstr "Can not delete model that we do not have an id for") ∧
      (modelDelete r a h (.ok ()) client).2.2 = noEffects ∧
      (∀ b, (modelAt (modelDelete r a h (.ok ()) client).1 b).attributes
          = (modelAt r b).attributes ∧
        (modelAt (modelDelete r a h (.ok ()) client).1 b).synced
          = (modelAt r b).synced ∧
        (modelAt (modelDelete r a h (.ok ()) client).1 b).new
          = (modelAt r b).new ∧
        (modelAt (modelDelete r a h (.ok ()) client).1 b).deleted
          = (modelAt r b).deleted) ∧
      (modelDelete r a h (.ok ()) client).1.models = r.models ∧
      (modelDelete r a h (.ok ()) client).1.collections = r.collections) ∧
    (c.getParams.isEmpty = true →
      (collectionDelete r c h (.ok ()) client).1 = r ∧
      (collectionDelete r c h (.ok ()) client).2.2.1 = .rejected (.vstr
        "Can not delete unfiltered collection (collection without any GET params") ∧
      (collectionDelete r c h (.ok ()) client).2.2.2 = noEffects ∧
      (collectionDelete r c h (.ok ()) client).2.1
        = { c with promises := c.promises ++ [h] }) ∧
    (data.isEmpty = true → collectionNew r c = false →
      (collectionSave r c h data (.ok ()) client).1 = r ∧
      (collectionSave r c h data (.ok ()) client).2.2.1
        = .rejected (.vstr "Cannot update collections, only create them") ∧
      (collectionSave r c h data (.ok ()) client).2.2.2 = noEffects ∧
      (collectionSave r c h data (.ok ()) client).2.1 = c) := by
  refine ⟨?_, ?_, ?_⟩
  · intro hid
    unfold modelDelete
    dsimp only
    have hsame : modelIdTruthy (heapUpd r a
        (fun m => { m with promises := m.promises ++ [h] })).idKey
        (modelAt (heapUpd r a
          (fun m => { m with promises := m.promises ++ [h] })) a)
        = modelIdTruthy r.idKey (modelAt r a) := by
      unfold modelIdTruthy modelId
      rw [(modelAt_pushHandle r a h a).1]
      rfl
    cases hid' : modelIdTruthy (heapUpd r a
        (fun m => { m with promises := m.promises ++ [h] })).idKey
        (modelAt (heapUpd r a
          (fun m => { m with promises := m.promises ++ [h] })) a) with
    | true =>
      rw [hsame, hid] at hid'
      exact absurd hid' (by decide)
    | false =>
      rw [Bool.not_false, if_pos rfl]
      exact ⟨rfl, rfl, fun b => modelAt_pushHandle r a h b, rfl, rfl⟩
  · intro hgp
    unfold collectionDelete
    dsimp only
    rw [hgp, if_pos rfl]
    exact ⟨rfl, rfl, rfl, rfl⟩
  · intro hde hnw
    unfold collectionSave
    dsimp only
    have hc0 : collectionNew r { c with promises := c.promises ++ [h] }
        = collectionNew r c := rfl
    rw [hde, Bool.true_and, hc0, hnw, Bool.not_false, if_pos rfl]
    refine ⟨rfl, rfl, rfl, ?_⟩
    dsimp only
    rw [spliceOut_append c.promises h hm]

/-- A registry whose single model has no id field, so its id is not truthy. -/
def c7r : RState :=
  ⟨"id", [⟨[("x", .vnum 1)], [], true, false, false, []⟩], [], []⟩

/-- C7 witness: deleting the concrete id-less model is refused with the
source's exact reason string. -/
theorem policy_refusals_reject_without_side_effects_witness :
    (modelIdTruthy c7r.idKey (modelAt c7r 0) = false ∧ 5 ∉ c3c.promises) ∧
    (modelDelete c7r 0 5 (.ok ()) (.ok .vnull)).2.1
      = .rejected (.vstr "Can not delete model that we do not have an id for") :=
  ⟨⟨by decide, by decide⟩,
    ((policy_refusals_reject_without_side_effects c7r c3c 0 5 [] (.ok .vnull)
      (by decide)).1 (by decide)).1⟩

/-- C8: counterexample.  A `Collection.save` whose transport call succeeds
with a non-array body logs the malformed response at debug severity, not at
error severity as the specification states (`logging.debug` on line 394,
versus `logging.error` on line 335 for the fetch path). -/
theorem save_malformed_logs_debug_not_error :
    (collectionSave c3r c3c 5 [.vnum 1] (.ok ()) (.ok (.vnum 3))).2.2.2.logs
      = [.debug] ∧
    (collectionSave c3r c3c 5 [.vnum 1] (.ok ()) (.ok (.vnum 3))).2.2.1
      = .rejected (respObj (.vnum 3)) ∧
    LogLevel.debug ≠ LogLevel.error :=
  ⟨rfl, rfl, by decide⟩

/-- C8 (amended): a collection fetch whose transport call succeeds with a
body that is neither an array nor an envelope carrying `results` logs one
event at error severity, rejects with the raw response object, reports
nothing, and leaves the registry and the collection's membership and
metadata untouched (only `_synced` is cleared and the settled handle
removed); a collection save in the same situation behaves identically
except that its log event is at debug severity. -/
theorem malformed_response_logging (r : RState) (c : CState) (h : Nat)
    (force : Bool) (data : List Value) (d : Value)
    (hm : h ∉ c.promises) (harr : isArr d = false) :
    ((!force && collectionSynced r c) = false → envelopeResults d = none →
      (collectionFetch r c h force (.ok ()) (.ok d)).2.2.1
        = .rejected (respObj d) ∧
      (collectionFetch r c h force (.ok ()) (.ok d)).2.2.2.logs = [.error] ∧
      (collectionFetch r c h force (.ok ()) (.ok d)).2.2.2.reported = false ∧
      (collectionFetch r c h force (.ok ()) (.ok d)).1 = r ∧
      (collectionFetch r c h force (.ok ()) (.ok d)).2.1
        = { c with _synced := false }) ∧
    ((data.isEmpty && !(collectionNew r c)) = false →
      (collectionSave r c h data (.ok ()) (.ok d)).2.2.1
        = .rejected (respObj d) ∧
      (collectionSave r c h data (.ok ()) (.ok d)).2.2.2.logs = [.debug] ∧
      (collectionSave r c h data (.ok ()) (.ok d)).2.2.2.reported = false ∧
      (collectionSave r c h data (.ok ()) (.ok d)).1 = r ∧
      (collectionSave r c h data (.ok ()) (.ok d)).2.1
        = { c with _synced := false }) := by
  constructor
  · intro hsc henv
    unfold collectionFetch
    dsimp only
    cases hsc' : !force && collectionSynced r { c with promises := c.promises ++ [h] } with
    | true =>
      have hx : (!force && collectionSynced r c) = true := hsc'
      rw [hsc] at hx
      exact absurd hx (by decide)
    | false =>
      rw [if_neg (by decide : ¬ (false = true))]
      cases d with
      | varr vs => simp [isArr] at harr
      | vobj o =>
        dsimp only
        rw [henv]
        refine ⟨rfl, rfl, rfl, rfl, ?_⟩
        dsimp only
        rw [spliceOut_append c.promises h hm]
      | vstr s =>
        dsimp only
        rw [henv]
        refine ⟨rfl, rfl, rfl, rfl, ?_⟩
        dsimp only
        rw [spliceOut_append c.promises h hm]
      | vnum n =>
        dsimp only
        rw [henv]
        refine ⟨rfl, rfl, rfl, rfl, ?_⟩
        dsimp only
        rw [spliceOut_append c.promises h hm]
      | vbool b =>
        dsimp only
        rw [henv]
        refine ⟨rfl, rfl, rfl, rfl, ?_⟩
        dsimp only
        rw [spliceOut_append c.promises h hm]
      | vnull =>
        dsimp only
        rw [henv]
        refine ⟨rfl, rfl, rfl, rfl, ?_⟩
        dsimp only
        rw [spliceOut_append c.promises h hm]
      | vundef =>
        dsimp only
        rw [henv]
        refine ⟨rfl, rfl, rfl, rfl, ?_⟩
        dsimp only
        rw [spliceOut_append c.promises h hm]
  · intro hns
    unfold collectionSave
    dsimp only
    cases hns' : data.isEmpty && !(collectionNew r { c with promises := c.promises ++ [h] }) with
    | true =>
      have hx : (data.isEmpty && !(collectionNew r c)) = true := hns'
      rw [hns] at hx
      exact absurd hx (by decide)
    | false =>
      rw [if_neg (by decide : ¬ (false = true))]
      cases d with
      | varr vs => simp [isArr] at harr
      | vobj o =>
        dsimp only
        refine ⟨rfl, rfl, rfl, rfl, ?_⟩
        dsimp only
        rw [spliceOut_append c.promises h hm]
      | vstr s =>
        dsimp only
        refine ⟨rfl, rfl, rfl, rfl, ?_⟩
        dsimp only
        rw [spliceOut_append c.promises h hm]
      | vnum n =>
        dsimp only
        refine ⟨rfl, rfl, rfl, rfl, ?_⟩
        dsimp only
        rw [spliceOut_append c.promises h hm]
      | vbool b =>
        dsimp only
        refine ⟨rfl, rfl, rfl, rfl, ?_⟩
        dsimp only
        rw [spliceOut_append c.promises h hm]
      | vnull =>
        dsimp only
        refine ⟨rfl, rfl, rfl, rfl, ?_⟩
        dsimp only
        rw [spliceOut_append c.promises h hm]
      | vundef =>
        dsimp only
        refine ⟨rfl, rfl, rfl, rfl, ?_⟩
        dsimp only
        rw [spliceOut_append c.promises h hm]

/-- C8 witness: a concrete fetch whose body is the number 3 — neither an
array nor an envelope — rejects with the raw response and logs at error
severity. -/
theorem malformed_response_logging_witness :
    (5 ∉ c3c.promises ∧ isArr (.vnum 3) = false
      ∧ (!true && collectionSynced c3r c3c) = false
      ∧ envelopeResults (.vnum 3) = none) ∧
    ((collectionFetch c3r c3c 5 true (.ok ()) (.ok (.vnum 3))).2.2.1
        = .rejected (respObj (.vnum 3)) ∧
      (collectionFetch c3r c3c 5 true (.ok ()) (.ok (.vnum 3))).2.2.2.logs
        = [.error]) :=
  ⟨⟨by decide, rfl, rfl, rfl⟩,
    ⟨((malformed_response_logging c3r c3c 5 true [] (.vnum 3) (by decide) rfl).1
        rfl rfl).1,
      ((malformed_response_logging c3r c3c 5 true [] (.vnum 3) (by decide) rfl).1
        rfl rfl).2.1⟩⟩

/-! ### A reference model for `Model.set` (lines 250-259)

The claims about `Model.set` are about object identity: the caller's
`attributes` object is mutated in place, and only a deep clone of it is
merged into `this.attributes`.  The `Value` embedding above is pure and
cannot distinguish a shared object from a copy, so for this method we use a
small reference semantics: field values are either primitives or references
into a heap of (flat) objects; `cloneDeep` allocates fresh cells at the end
of the heap. -/

/-- A JavaScript primitive. -/
inductive Prim where
  | pstr (s : String)
  | pnum (n : Int)
  | pbool (b : Bool)
  | pnull
  | pundef
  deriving Repr, DecidableEq

/-- A field value: a primitive, or a reference to a heap cell. -/
inductive MVal where
  | prim (p : Prim)
  | ref (a : Nat)
  deriving Repr, DecidableEq

/-- A heap cell: a plain object with primitive fields. -/
abbrev Cell := List (String × Prim)

/-- An object whose fields may reference heap cells. -/
abbrev HObj := List (String × MVal)

/-- JavaScript truthiness of a primitive. -/
def truthyP : Prim → Bool
  | .pstr s => s ≠ ""
  | .pnum n => n ≠ 0
  | .pbool b => b
  | .pnull => false
  | .pundef => false

/-- Truthiness of a field value: every object is truthy. -/
def truthyM : MVal → Bool
  | .prim p => truthyP p
  | .ref _ => true

/-- `String(v)` for the values of this reference model: a plain object
stringifies to `"[object Object]"`. -/
def strOfMVal : MVal → String
  | .prim (.pstr s) => s
  | .prim (.pnum n) => toString n
  | .prim (.pbool true) => "true"
  | .prim (.pbool false) => "false"
  | .prim .pnull => "null"
  | .prim .pundef => "undefined"
  | .ref _ => "[object Object]"

/-- Association-list property read, first match (generic). -/
def alookup {α : Type} : List (String × α) → String → Option α
  | [], _ => none
  | p :: rest, k => if p.1 = k then some p.2 else alookup rest k

/-- Association-list property write: an existing key keeps its position, a
new key is appended (generic). -/
def aset {α : Type} : List (String × α) → String → α → List (String × α)
  | [], k, v => [(k, v)]
  | p :: rest, k, v => if p.1 = k then (k, v) :: rest else p :: aset rest k v

/-- `Object.assign(o, u)` (generic). -/
def aassign {α : Type} (o u : List (String × α)) : List (String × α) :=
  u.foldl (fun acc p => aset acc p.1 p.2) o

/-- The view of a field value through a heap: primitives are themselves, a
reference is the contents of its cell. -/
inductive FieldView where
  | prim (p : Prim)
  | obj (cell : List (String × Prim))
  deriving Repr, DecidableEq

/-- Dereference a field value. -/
def viewM (heap : List Cell) : MVal → FieldView
  | .prim p => .prim p
  | .ref a => .obj ((heap.get? a).getD [])

/-- `cloneDeep(o)`, allocating the clone's cells sequentially from address
`next`: returns the freshly allocated cells (in address order) and the
cloned object, whose reference fields point at the fresh cells. -/
def cloneDeepGo (heap0 : List Cell) : HObj → Nat → List Cell × HObj
  | [], _ => ([], [])
  | p :: rest, next =>
    match p.2 with
    | .prim q =>
      let res := cloneDeepGo heap0 rest next
      (res.1, (p.1, .prim q) :: res.2)
    | .ref a =>
      let res := cloneDeepGo heap0 rest (next + 1)
      (((heap0.get? a).getD []) :: res.1, (p.1, .ref next) :: res.2)

/-- `Model.set(attributes)` (lines 250-259) over the reference model: coerce
a present truthy identity to its string form in place on the caller's
object, then `Object.assign` a deep clone of it onto the model's stored
attributes.  Returns the extended heap, the caller's (possibly mutated)
object, and the model's new stored attributes. -/
def modelSetRef (heap : List Cell) (idKey : String) (model attrs : HObj) :
    List Cell × HObj × HObj :=
  let attrs1 := match alookup attrs idKey with
    | some v => if truthyM v then aset attrs idKey (.prim (.pstr (strOfMVal v))) else attrs
    | none => attrs
  let res := cloneDeepGo heap attrs1 heap.length
  (heap ++ res.1, attrs1, aassign model res.2)

theorem alookup_aset_self {α : Type} (o : List (String × α)) (k : String) (v : α) :
    alookup (aset o k v) k = some v := by
  induction o with
  | nil => simp [aset, alookup]
  | cons p rest ih =>
    by_cases hp : p.1 = k
    · simp [aset, hp, alookup]
    · simp [aset, hp, alookup, ih]

theorem alookup_aset_ne {α : Type} (o : List (String × α)) (k k' : String) (v : α)
    (hne : k' ≠ k) : alookup (aset o k v) k' = alookup o k' := by
  induction o with
  | nil =>
    have : ¬ k = k' := fun he => hne he.symm
    simp [aset, alookup, this]
  | cons p rest ih =>
    by_cases hp : p.1 = k
    · have : ¬ k = k' := fun he => hne he.symm
      simp [aset, hp, alookup, this]
    · simp [aset, hp, alookup, ih]

theorem alookup_eq_none_of_not_mem {α : Type} (o : List (String × α)) (k : String)
    (h : k ∉ o.map Prod.fst) : alookup o k = none := by
  induction o with
  | nil => rfl
  | cons p rest ih =>
    rw [List.map_cons] at h
    have hp : ¬ p.1 = k := fun he => h (he ▸ List.mem_cons_self p.1 _)
    rw [alookup, if_neg hp]
    exact ih (fun hmem => h (List.mem_cons_of_mem _ hmem))

theorem keys_aset_of_mem {α : Type} (o : List (String × α)) (k : String) (v : α)
    (h : k ∈ o.map Prod.fst) : (aset o k v).map Prod.fst = o.map Prod.fst := by
  induction o with
  | nil => simp at h
  | cons p rest ih =>
    by_cases hp : p.1 = k
    · simp [aset, hp]
    · rw [List.map_cons] at h
      rcases List.mem_cons.mp h with h1 | h2
    
      · exact absurd h1.symm hp
      · simp [aset, hp, ih h2]

theorem alookup_aassign {α : Type} (u : List (String × α)) :
    ∀ (o : List (String × α)), (u.map Prod.fst).Nodup → ∀ k,
      alookup (aassign o u) k
        = match alookup u k with
          | some v => some v
          | none => alookup o k := by
  induction u with
  | nil => intro o _ k; rfl
  | cons p rest ih =>
    intro o hnd k
    rw [List.map_cons] at hnd
    have hnd' := List.nodup_cons.mp hnd
    have hstep : aassign o (p :: rest) = aassign (aset o p.1 p.2) rest := rfl
    rw [hstep, ih (aset o p.1 p.2) hnd'.2 k]
    by_cases hp : p.1 = k
    · subst hp
      have hrest : alookup rest p.1 = none :=
        alookup_eq_none_of_not_mem rest p.1 hnd'.1
    
      rw [hrest, alookup, if_pos rfl, alookup_aset_self]
    · have hk : ¬ p.1 = k := hp
      rw [alookup, if_neg hk]
      cases hu : alookup rest k with
      | some v => rfl
      | none => rw [alookup_aset_ne o p.1 k p.2 (fun he => hk he.symm)]

theorem cloneDeepGo_keys (heap0 : List Cell) :
    ∀ (o : HObj) (next : Nat),
      (cloneDeepGo heap0 o next).2.map Prod.fst = o.map Prod.fst
  | [], _ => rfl
  | ⟨k0, v0⟩ :: rest, next => by
    cases v0 with
    | prim q =>
      exact congrArg (fun l => k0 :: l) (cloneDeepGo_keys heap0 rest next)
    | ref a =>
      exact congrArg (fun l => k0 :: l) (cloneDeepGo_keys heap0 rest (next + 1))

theorem cloneDeepGo_lookup (heap0 : List Cell) :
    ∀ (o : HObj) (next : Nat) (k : String),
      (alookup o k = none → alookup (cloneDeepGo heap0 o next).2 k = none) ∧
      (∀ q, alookup o k = some (.prim q) →
        alookup (cloneDeepGo heap0 o next).2 k = some (.prim q)) ∧
      (∀ a, alookup o k = some (.ref a) →
        ∃ b, alookup (cloneDeepGo heap0 o next).2 k = some (.ref b) ∧ next ≤ b ∧
          (cloneDeepGo heap0 o next).1.get? (b - next)
            = some ((heap0.get? a).getD []))
  | [], next, k =>
    ⟨fun _ => rfl, fun q hq => by simp [alookup] at hq,
     fun a ha => by simp [alookup] at ha⟩
  | ⟨k0, v0⟩ :: rest, next, k => by
    cases v0 with
    | prim q0 =>
      have hred : cloneDeepGo heap0 (⟨k0, .prim q0⟩ :: rest) next
          = ((cloneDeepGo heap0 rest next).1,
             (k0, .prim q0) :: (cloneDeepGo heap0 rest next).2) := rfl
      rw [hred]
      by_cases hk : k0 = k
      · subst hk
        refine ⟨fun hn => ?_, fun q hq => ?_, fun a ha => ?_⟩
        · rw [alookup, if_pos rfl] at hn
          exact absurd hn (by simp)
        · rw [alookup, if_pos rfl] at hq
          simp only [Option.some.injEq, MVal.prim.injEq] at hq
          subst hq
          rw [alookup, if_pos rfl]
        · rw [alookup, if_pos rfl] at ha
          simp at ha
      · have h1 : alookup (⟨k0, MVal.prim q0⟩ :: rest) k = alookup rest k := by
          rw [alookup, if_neg hk]
        have h2 : alookup ((k0, MVal.prim q0) :: (cloneDeepGo heap0 rest next).2) k
            = alookup (cloneDeepGo heap0 rest next).2 k := by
          rw [alookup, if_neg hk]
        rw [h1, h2]
        exact cloneDeepGo_lookup heap0 rest next k
    | ref a0 =>
      have hred : cloneDeepGo heap0 (⟨k0, .ref a0⟩ :: rest) next
          = (((heap0.get? a0).getD []) :: (cloneDeepGo heap0 rest (next + 1)).1,
             (k0, .ref next) :: (cloneDeepGo heap0 rest (next + 1)).2) := rfl
      rw [hred]
      by_cases hk : k0 = k
      · subst hk
        refine ⟨fun hn => ?_, fun q hq => ?_, fun a ha => ?_⟩
        · rw [alookup, if_pos rfl] at hn
          exact absurd hn (by simp)
        · rw [alookup, if_pos rfl] at hq
          simp at hq
        · rw [alookup, if_pos rfl] at ha
          simp only [Option.some.injEq, MVal.ref.injEq] at ha
          subst ha
          refine ⟨next, ?_, Nat.le_refl next, ?_⟩
          · rw [alookup, if_pos rfl]
          · simp
      · have h1 : alookup (⟨k0, MVal.ref a0⟩ :: rest) k = alookup rest k := by
          rw [alookup, if_neg hk]
        have h2 : alookup ((k0, MVal.ref next) :: (cloneDeepGo heap0 rest (next + 1)).2) k
            = alookup (cloneDeepGo heap0 rest (next + 1)).2 k := by
          rw [alookup, if_neg hk]
        rw [h1, h2]
        obtain ⟨g1, g2, g3⟩ := cloneDeepGo_lookup heap0 rest (next + 1) k
        refine ⟨g1, g2, fun a ha => ?_⟩
        obtain ⟨b, hb1, hb2, hb3⟩ := g3 a ha
        refine ⟨b, hb1, Nat.le_of_succ_le hb2, ?_⟩
        have hpos : b - next = (b - (next + 1)) + 1 := by omega
        rw [hpos, List.get?_cons_succ]
        exact hb3

theorem alookup_some_mem_keys {α : Type} (o : List (String × α)) (k : String) (v : α)
    (h : alookup o k = some v) : k ∈ o.map Prod.fst := by
  induction o with
  | nil => simp [alookup] at h
  | cons p rest ih =>
    by_cases hp : p.1 = k
    · rw [List.map_cons, hp]
      exact List.mem_cons_self _ _
    · rw [alookup, if_neg hp] at h
      exact List.mem_cons_of_mem _ (ih h)

theorem setRefCore (heap : List Cell) (model o : HObj)
    (hnd : (o.map Prod.fst).Nodup) (k : String) :
    (∀ v, alookup o k = some v →
      Option.map (viewM (heap ++ (cloneDeepGo heap o heap.length).1))
          (alookup (aassign model (cloneDeepGo heap o heap.length).2) k)
        = some (viewM heap v)) ∧
    (alookup o k = none →
      alookup (aassign model (cloneDeepGo heap o heap.length).2) k
        = alookup model k) ∧
    (∀ v, alookup o k = some v → ∀ b u, b < heap.length →
      Option.map (viewM ((heap ++ (cloneDeepGo heap o heap.length).1).set b u))
          (alookup (aassign model (cloneDeepGo heap o heap.length).2) k)
        = Option.map (viewM (heap ++ (cloneDeepGo heap o heap.length).1))
          (alookup (aassign model (cloneDeepGo heap o heap.length).2) k)) := by
  have hndc : ((cloneDeepGo heap o heap.length).2.map Prod.fst).Nodup := by
    rw [cloneDeepGo_keys]
    exact hnd
  have hassign := alookup_aassign (cloneDeepGo heap o heap.length).2 model hndc k
  obtain ⟨g1, g2, g3⟩ := cloneDeepGo_lookup heap o heap.length k
  refine ⟨fun v hv => ?_, fun hn => ?_, fun v hv b u hb => ?_⟩
  · cases v with
    | prim q =>
      rw [hassign, g2 q hv]
      rfl
    | ref a =>
      obtain ⟨b, hb1, hb2, hb3⟩ := g3 a hv
      rw [hassign, hb1]
      have hget : (heap ++ (cloneDeepGo heap o heap.length).1)[b]?
          = some ((heap.get? a).getD []) := by
        rw [List.getElem?_append_right hb2, ← List.get?_eq_getElem?]
        exact hb3
      simp [viewM, hget, List.get?_eq_getElem?]
  · rw [hassign, g1 hn]
  · cases v with
    | prim q =>
      rw [hassign, g2 q hv]
      rfl
    | ref a =>
      obtain ⟨b', hb1, hb2, hb3⟩ := g3 a hv
      rw [hassign, hb1]
      have hne : b ≠ b' := by omega
      have hset : ((heap ++ (cloneDeepGo heap o heap.length).1).set b u)[b']?
          = (heap ++ (cloneDeepGo heap o heap.length).1)[b']? :=
        List.getElem?_set_ne hne
      simp [viewM, hset, List.get?_eq_getElem?]

/-- C10: `Model.set` mutates the caller's attributes object in place exactly
when it carries the resource's `idKey` with a truthy value (the field is
overwritten with its string form; a falsy identity — `0`, `null`,
`undefined`, `""`, `false` — is left unconverted and the object returned
unchanged), and what is merged into the model is a deep clone: the model's
stored view of every field of the caller's object equals the caller's view
at `set` time, fields absent from the caller's object are left as they were
on the model, and mutating any pre-existing heap cell — in particular any
object the caller's fields reference — afterwards does not change the
model's stored views, because the clone's references point only at the
freshly allocated cells. -/
theorem model_set_mutates_caller_and_stores_clone (heap : List Cell)
    (idKey : String) (model attrs : HObj)
    (hnd : (attrs.map Prod.fst).Nodup) :
    (∀ v, alookup attrs idKey = some v → truthyM v = true →
      (modelSetRef heap idKey model attrs).2.1
        = aset attrs idKey (.prim (.pstr (strOfMVal v)))) ∧
    (∀ v, alookup attrs idKey = some v → truthyM v = false →
      (modelSetRef heap idKey model attrs).2.1 = attrs) ∧
    (alookup attrs idKey = none →
      (modelSetRef heap idKey model attrs).2.1 = attrs) ∧
    (∀ k v, alookup (modelSetRef heap idKey model attrs).2.1 k = some v →
      Option.map (viewM (modelSetRef heap idKey model attrs).1)
          (alookup (modelSetRef heap idKey model attrs).2.2 k)
        = some (viewM heap v)) ∧
    (∀ k, alookup (modelSetRef heap idKey model attrs).2.1 k = none →
      alookup (modelSetRef heap idKey model attrs).2.2 k = alookup model k) ∧
    (∀ k v, alookup (modelSetRef heap idKey model attrs).2.1 k = some v →
      ∀ b u, b < heap.length →
        Option.map (viewM ((modelSetRef heap idKey model attrs).1.set b u))
            (alookup (modelSetRef heap idKey model attrs).2.2 k)
          = Option.map (viewM (modelSetRef heap idKey model attrs).1)
            (alookup (modelSetRef heap idKey model attrs).2.2 k)) := by
  have hnd1 : (((modelSetRef heap idKey model attrs).2.1).map Prod.fst).Nodup := by
    show ((match alookup attrs idKey with
        | some v => if truthyM v then aset attrs idKey (.prim (.pstr (strOfMVal v))) else attrs
        | none => attrs).map Prod.fst).Nodup
    cases hid : alookup attrs idKey with
    | none => exact hnd
    | some v =>
      dsimp only
      cases htv : truthyM v with
      | false =>
        rw [if_neg (by decide : ¬ (false = true))]
        exact hnd
      | true =>
        rw [if_pos rfl,
          keys_aset_of_mem attrs idKey _ (alookup_some_mem_keys attrs idKey v hid)]
        exact hnd
  refine ⟨?_, ?_, ?_,
    fun k v hv => (setRefCore heap model _ hnd1 k).1 v hv,
    fun k hn => (setRefCore heap model _ hnd1 k).2.1 hn,
    fun k v hv b u hb => (setRefCore heap model _ hnd1 k).2.2 v hv b u hb⟩
  · intro v hv htv
    show (match alookup attrs idKey with
        | some w => if truthyM w then aset attrs idKey (.prim (.pstr (strOfMVal w))) else attrs
        | none => attrs)
      = aset attrs idKey (.prim (.pstr (strOfMVal v)))
    rw [hv]
    dsimp only
    rw [htv, if_pos rfl]
  · intro v hv htv
    show (match alookup attrs idKey with
        | some w => if truthyM w then aset attrs idKey (.prim (.pstr (strOfMVal w))) else attrs
        | none => attrs)
      = attrs
    rw [hv]
    dsimp only
    rw [htv, if_neg (by decide : ¬ (false = true))]
  · intro hn
    show (match alookup attrs idKey with
        | some w => if truthyM w then aset attrs idKey (.prim (.pstr (strOfMVal w))) else attrs
        | none => attrs)
      = attrs
    rw [hn]

/-- C10 witness: setting `{id: 7, obj: <ref to cell 0>}` on an empty model
overwrites the caller's `id` field in place with the string `"7"`. -/
theorem model_set_mutates_caller_and_stores_clone_witness :
    ((([("id", MVal.prim (.pnum 7)), ("obj", MVal.ref 0)] : HObj).map Prod.fst).Nodup
      ∧ alookup ([("id", MVal.prim (.pnum 7)), ("obj", MVal.ref 0)] : HObj) "id"
          = some (MVal.prim (.pnum 7))
      ∧ truthyM (MVal.prim (.pnum 7)) = true) ∧
    (modelSetRef [[("p", Prim.pnum 1)]] "id" []
        [("id", MVal.prim (.pnum 7)), ("obj", MVal.ref 0)]).2.1
      = aset [("id", MVal.prim (.pnum 7)), ("obj", MVal.ref 0)] "id"
          (MVal.prim (.pstr "7")) :=
  ⟨⟨by decide, rfl, rfl⟩, by
    have h := (model_set_mutates_caller_and_stores_clone [[("p", Prim.pnum 1)]] "id"
      [] [("id", MVal.prim (.pnum 7)), ("obj", MVal.ref 0)] (by decide)).1
      (MVal.prim (.pnum 7)) rfl rfl
    rw [h]
    rfl⟩
